import Mathlib

/-!
Verification of the anyrouter-proxy transform-and-relay pipeline.

The development shallowly embeds the request/response transformation code
(transform.ts and the request-augmentation / SSE-relay parts of server.ts)
over a JSON value model.  JavaScript objects are modelled as association
lists preserving key insertion order; JavaScript numbers are modelled as
integers (the only numeric literals the pipeline manipulates are integer
token budgets); unicode case conversion is modelled on the basic latin
range, matching the inputs the proxy handles.
-/

set_option maxRecDepth 4000

namespace AnyRouterProxy

/-- Dynamic values the proxy manipulates.  Object members are an
association list in insertion order.  `protoFn` is the one non-JSON host
value the pipeline can create: the truthy member found when the name table
is indexed at a key inherited from Object.prototype (a function — or, for
the key written as two underscores, proto, two underscores, the prototype
object itself).  Parsed request/response bodies never contain it. -/
inductive Json : Type where
  | null : Json
  | bool : Bool → Json
  | num : Int → Json
  | str : String → Json
  | arr : List Json → Json
  | obj : List (String × Json) → Json
  | protoFn : String → Json

/-- Own-property lookup on an object value; `none` for non-objects
(reading a field of a non-object yields `undefined` in the source). -/
def lookupKV : List (String × Json) → String → Option Json
  | [], _ => none
  | (k, v) :: t, key => if k = key then some v else lookupKV t key

def Json.getField? : Json → String → Option Json
  | .obj kvs, key => lookupKV kvs key
  | _, _ => none

/-- Property assignment `o[key] = v`: replace the value of an existing key
in place (key order preserved), otherwise append the key at the end.
Assignment on non-objects is not representable in the JSON model (such a
body is never a well-formed Messages request) and is a no-op here. -/
def setKV : List (String × Json) → String → Json → List (String × Json)
  | [], key, v => [(key, v)]
  | (k, w) :: t, key, v => if k = key then (key, v) :: t else (k, w) :: setKV t key v

def Json.setField : Json → String → Json → Json
  | .obj kvs, key, v => .obj (setKV kvs key v)
  | j, _, _ => j

/-- JavaScript truthiness of a JSON value. -/
def jsTruthy : Json → Bool
  | .null => false
  | .bool b => b
  | .num n => n ≠ 0
  | .str s => s ≠ ""
  | .arr _ => true
  | .obj _ => true
  | .protoFn _ => true

-- ============================================================
-- Host string primitives, at character level
-- ============================================================

/-- Does `needle` occur at the head of `hay`? -/
def beginsWithL : List Char → List Char → Bool
  | _, [] => true
  | [], _ :: _ => false
  | h :: hs, n :: ns => h = n && beginsWithL hs ns

/-- `String.prototype.startsWith`. -/
def jsStartsWith (s p : String) : Bool := beginsWithL s.data p.data

/-- Whitespace trimmed by `String.prototype.trim` (the rarer unicode space
code points do not occur in the streams the relay handles). -/
def isWsChar (c : Char) : Bool := c = ' ' || c = '\t' || c = '\n' || c = '\r'

/-- `String.prototype.trim`. -/
def strTrim (s : String) : String :=
  String.mk (((s.data.dropWhile isWsChar).reverse.dropWhile isWsChar).reverse)

/-- `String.prototype.slice` from a character offset to the end. -/
def strDrop (s : String) (n : Nat) : String := String.mk (s.data.drop n)

/-- `part.split("\n")` at character level. -/
def splitLines : List Char → List (List Char)
  | [] => [[]]
  | '\n' :: t => [] :: splitLines t
  | c :: t =>
      match splitLines t with
      | [] => [[c]]
      | p :: ps => (c :: p) :: ps

/-- `lines.join("\n")`. -/
def joinNl : List String → String
  | [] => ""
  | [s] => s
  | s :: rest => s ++ "\n" ++ joinNl rest

-- ============================================================
-- transform.ts : tool-name mapping
-- ============================================================

/-- Static tool-name lookup table (`NAME_MAP`). -/
def NAME_MAP : List (String × String) :=
  [("todowrite", "TodoWrite"), ("webfetch", "WebFetch"), ("google_search", "Google_Search")]

def lookupName : List (String × String) → String → Option String
  | [], _ => none
  | (k, v) :: t, key => if k = key then some v else lookupName t key

/-- Builtin server-side tool `type` markers (`BUILTIN_TOOL_TYPES`). -/
def BUILTIN_TOOL_TYPES : List String :=
  ["web_search", "computer", "text_editor", "bash",
   "code_execution", "memory", "web_fetch", "tool_search"]

/-- `isBuiltinTool`: the `type` field is a (truthy, i.e. nonempty) string that
starts with one of the builtin markers. -/
def isBuiltinTool (tool : Json) : Bool :=
  match tool.getField? "type" with
  | some (.str s) => s ≠ "" && BUILTIN_TOOL_TYPES.any (fun p => jsStartsWith s p)
  | _ => false

/-- First character uppercased, remainder unchanged
(`name.charAt(0).toUpperCase() + name.slice(1)`, basic latin range). -/
def upperFirst (s : String) : String :=
  match s.data with
  | [] => s
  | c :: cs => String.mk (c.toUpper :: cs)

/-- Member keys that indexing an object literal finds on Object.prototype
when no own key matches; each holds a truthy non-string member. -/
def OBJECT_PROTOTYPE_MEMBERS : List String :=
  ["constructor", "hasOwnProperty", "isPrototypeOf", "propertyIsEnumerable",
   "toLocaleString", "toString", "valueOf", "__defineGetter__", "__defineSetter__",
   "__lookupGetter__", "__lookupSetter__", "__proto__"]

/-- `mapName`: the untyped index `NAME_MAP[name]` first — an own key yields
its canonical form, and a key inherited from Object.prototype yields the
truthy inherited member itself (a function, not a string), which the
source then returns; otherwise uppercase the first letter.  The argument
domain is string-or-undefined-or-null (`none` models `undefined`); falsy
or non-string input is returned unchanged. -/
def mapName : Option Json → Option Json
  | some (.str s) =>
      if s = "" then some (.str s)
      else
        match lookupName NAME_MAP s with
        | some canonical => some (.str canonical)
        | none =>
            if s ∈ OBJECT_PROTOTYPE_MEMBERS then some (.protoFn s)
            else some (.str (upperFirst s))
  | x => x

-- ============================================================
-- transform.ts : deep removal of the "[undefined]" sentinel
-- ============================================================

/-- Strict equality test against the sentinel string (`value === "[undefined]"`). -/
def isSentinel : Json → Bool
  | .str s => s = "[undefined]"
  | _ => false

mutual

/-- `cleanUndefined`: drop array elements and object values that are exactly
the sentinel string, recursing into the survivors; scalars are returned
unchanged. -/
def cleanUndefined : Json → Json
  | .arr xs => .arr (cleanList xs)
  | .obj kvs => .obj (cleanObj kvs)
  | j => j

def cleanList : List Json → List Json
  | [] => []
  | x :: xs => if isSentinel x then cleanList xs else cleanUndefined x :: cleanList xs

def cleanObj : List (String × Json) → List (String × Json)
  | [] => []
  | (k, v) :: kvs =>
      if isSentinel v then cleanObj kvs else (k, cleanUndefined v) :: cleanObj kvs

end

mutual

/-- Does the sentinel string occur anywhere in the tree (as the tree itself,
an array element, or an object value, at any depth)? -/
def hasSentinel : Json → Bool
  | .str s => s = "[undefined]"
  | .arr xs => hasSentinelList xs
  | .obj kvs => hasSentinelObj kvs
  | _ => false

def hasSentinelList : List Json → Bool
  | [] => false
  | x :: xs => hasSentinel x || hasSentinelList xs

def hasSentinelObj : List (String × Json) → Bool
  | [] => false
  | (_, v) :: kvs => hasSentinel v || hasSentinelObj kvs

end

-- ============================================================
-- transform.ts : request-body tool-name normalization
-- ============================================================

/-- Per-tool step of `transformRequestBody`: builtin tools are skipped,
otherwise a truthy `name` is remapped through `mapName`. -/
def transformTool (tool : Json) : Json :=
  if isBuiltinTool tool then tool
  else
    match tool.getField? "name" with
    | some nv =>
        if jsTruthy nv then
          match mapName (some nv) with
          | some nv2 => tool.setField "name" nv2
          | none => tool
        else tool
    | none => tool

/-- Per-content-block step of `transformRequestBody`: `tool_use` blocks with
a truthy `name` are remapped through `mapName`. -/
def transformMsgBlock (block : Json) : Json :=
  match block.getField? "type", block.getField? "name" with
  | some (.str t), some nv =>
      if t = "tool_use" && jsTruthy nv then
        match mapName (some nv) with
        | some nv2 => block.setField "name" nv2
        | none => block
      else block
  | _, _ => block

/-- Per-message step of `transformRequestBody`: rewrite the blocks of an
array-valued `content`. -/
def transformMessage (message : Json) : Json :=
  match message.getField? "content" with
  | some (.arr blocks) => message.setField "content" (.arr (blocks.map transformMsgBlock))
  | _ => message

/-- `transformRequestBody`: normalize tool names in `tools` and in `tool_use`
content blocks of `messages` (builtin tools skipped).  Non-object bodies are
returned unchanged. -/
def transformRequestBody (body : Json) : Json :=
  match body with
  | .obj _ =>
      let b1 :=
        match body.getField? "tools" with
        | some (.arr ts) => body.setField "tools" (.arr (ts.map transformTool))
        | _ => body
      match b1.getField? "messages" with
      | some (.arr ms) => b1.setField "messages" (.arr (ms.map transformMessage))
      | _ => b1
  | _ => body

-- ============================================================
-- JSON.parse / JSON.stringify (the host primitives the code calls)
-- ============================================================

/-- JSON insignificant whitespace (space, tab, line feed, carriage return). -/
def jsonWs (c : Char) : Bool := c = ' ' || c = '\t' || c = '\n' || c = '\r'

def skipWs : List Char → List Char
  | [] => []
  | c :: t => if jsonWs c then skipWs t else c :: t

/-- Single-character JSON string escapes.  `\uXXXX` escapes are outside the
model (parsing such a payload fails here where the host parser succeeds;
no claim exercises them). -/
def escChar (e : Char) : Option Char :=
  if e = '"' then some '"'
  else if e = '\\' then some '\\'
  else if e = '/' then some '/'
  else if e = 'n' then some '\n'
  else if e = 't' then some '\t'
  else if e = 'r' then some '\r'
  else if e = 'b' then some (Char.ofNat 8)
  else if e = 'f' then some (Char.ofNat 12)
  else none

/-- Parse the body of a JSON string literal up to the closing quote. -/
def parseStrChars : List Char → Option (List Char × List Char)
  | [] => none
  | '"' :: t => some ([], t)
  | '\\' :: e :: t => do
      let c ← escChar e
      let (cs, rest) ← parseStrChars t
      some (c :: cs, rest)
  | c :: t => do
      let (cs, rest) ← parseStrChars t
      some (c :: cs, rest)

def digitsVal : Nat → List Char → Nat × List Char
  | acc, [] => (acc, [])
  | acc, c :: t => if c.isDigit then digitsVal (10 * acc + (c.toNat - 48)) t else (acc, c :: t)

/-- Integer JSON numbers.  Fractional and exponent forms are outside the
integer model (parsing fails here); no claim manipulates such a number. -/
def parseNat : List Char → Option (Nat × List Char)
  | [] => none
  | c :: t =>
      if c.isDigit then
        match digitsVal (c.toNat - 48) t with
        | (_, '.' :: _) => none
        | (_, 'e' :: _) => none
        | (_, 'E' :: _) => none
        | (n, rest) => some (n, rest)
      else none

def parseNumTok : List Char → Option (Int × List Char)
  | '-' :: t => (parseNat t).map fun p => (-(p.1 : Int), p.2)
  | t => (parseNat t).map fun p => ((p.1 : Int), p.2)

mutual

/-- Fuel-indexed JSON value parser (recognizing subset of `JSON.parse`). -/
def parseVal : Nat → List Char → Option (Json × List Char)
  | 0, _ => none
  | Nat.succ fuel, cs =>
      match skipWs cs with
      | 'n' :: 'u' :: 'l' :: 'l' :: t => some (.null, t)
      | 't' :: 'r' :: 'u' :: 'e' :: t => some (.bool true, t)
      | 'f' :: 'a' :: 'l' :: 's' :: 'e' :: t => some (.bool false, t)
      | '"' :: t => (parseStrChars t).map fun p => (.str (String.mk p.1), p.2)
      | '[' :: t =>
          (match skipWs t with
           | ']' :: r => some (.arr [], r)
           | _ => (parseItems fuel t).map fun p => (.arr p.1, p.2))
      | '\x7b' :: t =>
          (match skipWs t with
           | '\x7d' :: r => some (.obj [], r)
           | _ => (parseFields fuel t).map fun p => (.obj p.1, p.2))
      | t => (parseNumTok t).map fun p => (.num p.1, p.2)

def parseItems : Nat → List Char → Option (List Json × List Char)
  | 0, _ => none
  | Nat.succ fuel, cs => do
      let (v, r) ← parseVal fuel cs
      match skipWs r with
      | ',' :: r2 => do
          let (vs, r3) ← parseItems fuel r2
          some (v :: vs, r3)
      | ']' :: r2 => some ([v], r2)
      | _ => none

def parseFields : Nat → List Char → Option (List (String × Json) × List Char)
  | 0, _ => none
  | Nat.succ fuel, cs =>
      match skipWs cs with
      | '"' :: t => do
          let (kcs, r) ← parseStrChars t
          match skipWs r with
          | ':' :: r2 => do
              let (v, r3) ← parseVal fuel r2
              match skipWs r3 with
              | ',' :: r4 => do
                  let (fs, r5) ← parseFields fuel r4
                  some ((String.mk kcs, v) :: fs, r5)
              | '\x7d' :: r4 => some ([(String.mk kcs, v)], r4)
              | _ => none
          | _ => none
      | _ => none

end

/-- `JSON.parse`: parse one value, then require only trailing whitespace.
Note duplicate object keys: the host parser keeps the last occurrence,
the model keeps both entries and field lookup finds the first; no claim
involves a payload with duplicate keys. -/
def jsonParse (s : String) : Option Json :=
  match parseVal (2 * s.data.length + 2) s.data with
  | some (v, rest) => if skipWs rest = [] then some v else none
  | none => none

/-- JSON string-literal escaping for serialization (quote, backslash, and
the common control characters; other code points are emitted verbatim). -/
def escapeChars : List Char → List Char
  | [] => []
  | c :: t =>
      if c = '"' then '\\' :: '"' :: escapeChars t
      else if c = '\\' then '\\' :: '\\' :: escapeChars t
      else if c = '\n' then '\\' :: 'n' :: escapeChars t
      else if c = '\t' then '\\' :: 't' :: escapeChars t
      else if c = '\r' then '\\' :: 'r' :: escapeChars t
      else c :: escapeChars t

def quoteStr (s : String) : String := "\"" ++ String.mk (escapeChars s.data) ++ "\""

def joinComma : List String → String
  | [] => ""
  | [s] => s
  | s :: rest => s ++ "," ++ joinComma rest

mutual

/-- `JSON.stringify` (no indentation, key order preserved).  Function
values — the `protoFn` host value — are omitted as object members and
rendered null as array elements, as the host serializer does; a bare
function serializes to the undefined result, rendered as its template
literal text (unreachable from the call sites, which serialize parsed
event objects). -/
def jsonStringify : Json → String
  | .null => "null"
  | .bool true => "true"
  | .bool false => "false"
  | .num n => toString n
  | .str s => quoteStr s
  | .arr xs => "[" ++ joinComma (stringifyItems xs) ++ "]"
  | .obj kvs => "\x7b" ++ joinComma (stringifyFields kvs) ++ "\x7d"
  | .protoFn _ => "undefined"

def stringifyItems : List Json → List String
  | [] => []
  | .protoFn _ :: xs => "null" :: stringifyItems xs
  | x :: xs => jsonStringify x :: stringifyItems xs

def stringifyFields : List (String × Json) → List String
  | [] => []
  | (_, .protoFn _) :: kvs => stringifyFields kvs
  | (k, v) :: kvs => (quoteStr k ++ ":" ++ jsonStringify v) :: stringifyFields kvs

end

-- ============================================================
-- transform.ts : response repair (stringified tool_use inputs)
-- ============================================================

/-- Per-value repair step of `transformResponseBody`: a string value that
starts with a bracket or a brace is replaced by its successful JSON parse;
on parse failure the original string is kept. -/
def fixVal (v : Json) : Json :=
  match v with
  | .str s =>
      if jsStartsWith s "[" || jsStartsWith s "\x7b" then
        match jsonParse s with
        | some r => r
        | none => v
      else v
  | _ => v

/-- Per-block repair step of `transformResponseBody`: only `tool_use` blocks
with a truthy object-typed `input` are touched (in JavaScript both plain
objects and arrays have typeof "object", so both are iterated). -/
def fixBlock (block : Json) : Json :=
  match block.getField? "type", block.getField? "input" with
  | some (.str t), some (.obj kvs) =>
      if t = "tool_use" then
        block.setField "input" (.obj (kvs.map fun kv => (kv.1, fixVal kv.2)))
      else block
  | some (.str t), some (.arr xs) =>
      if t = "tool_use" then block.setField "input" (.arr (xs.map fixVal)) else block
  | _, _ => block

/-- `transformResponseBody`: repair double-serialized `tool_use` inputs in a
non-streaming response; bodies without an array-valued `content` are
returned unchanged. -/
def transformResponseBody (body : Json) : Json :=
  match body.getField? "content" with
  | some (.arr blocks) => body.setField "content" (.arr (blocks.map fixBlock))
  | _ => body

-- ============================================================
-- transform.ts : SSE line rewrite
-- ============================================================

/-- Event shape guard of `transformSSELine`: a `content_block_start` event
whose `content_block` is a `tool_use` block with a truthy `name`. -/
def sseCond (d : Json) : Bool :=
  match d.getField? "type" with
  | some (.str t) =>
      t = "content_block_start" &&
        (match d.getField? "content_block" with
         | some cb =>
             (match cb.getField? "type" with
              | some (.str ct) => ct = "tool_use"
              | _ => false) &&
             (match cb.getField? "name" with
              | some nv => jsTruthy nv
              | none => false)
         | none => false)
  | _ => false

/-- Name rewrite inside the `content_block` of a matching SSE event. -/
def sseRewriteName (d : Json) : Json :=
  match d.getField? "content_block" with
  | some cb =>
      match cb.getField? "name" with
      | some nv =>
          match mapName (some nv) with
          | some nv2 => d.setField "content_block" (cb.setField "name" nv2)
          | none => d
      | none => d
  | none => d

/-- `transformSSELine`: rewrite the tool name inside a single SSE `data:`
line; every other line (non-data lines, empty or `[DONE]` payloads,
unparseable payloads, events of any other shape) is returned unchanged. -/
def transformSSELine (line : String) : String :=
  if jsStartsWith line "data:" then
    let jsonStr := strTrim (strDrop line 5)
    if jsonStr = "" || jsonStr = "[DONE]" then line
    else
      match jsonParse jsonStr with
      | some d =>
          if sseCond d then "data: " ++ jsonStringify (sseRewriteName d) else line
      | none => line
  else line

-- ============================================================
-- server.ts : canonical Claude Code system prompt
-- ============================================================

/-- First canonical system segment text. -/
def claudeCodeText1 : String :=
  "You are Claude Code, Anthropic\x27s official CLI for Claude."

/-- Second canonical system segment text. -/
def claudeCodeText2 : String :=
  "You are an interactive CLI tool that helps users with software engineering tasks. Use the instructions below and the tools available to you to assist the user.\n\n# Tone and style\n- Only use emojis if the user explicitly requests it. Avoid using emojis in all communication unless asked.\n- Your output will be displayed on a command line interface. Your responses should be short and concise. You can use Github-flavored markdown for formatting, and will be rendered in a monospace font using the CommonMark specification.\n- Output text to communicate with the user; all text you output outside of tool use is displayed to the user. Only use tools to complete tasks. Never use tools like Bash or code comments as means to communicate with the user during the session.\n\n# Doing tasks\nThe user will primarily request you perform software engineering tasks. This includes solving bugs, adding new functionality, refactoring code, explaining code, and more.\n\nHere is useful information about the environment you are running in:\n<env>\nPlatform: win32\nShell: bash\n</env>"

/-- `CLAUDE_CODE_SYSTEM`: the two fixed canonical segments, each with an
ephemeral cache_control marker. -/
def CLAUDE_CODE_SYSTEM : Json :=
  .arr
    [.obj [("type", .str "text"), ("text", .str claudeCodeText1),
           ("cache_control", .obj [("type", .str "ephemeral")])],
     .obj [("type", .str "text"), ("text", .str claudeCodeText2),
           ("cache_control", .obj [("type", .str "ephemeral")])]]

-- ============================================================
-- server.ts : thinking injection
-- ============================================================

def CLAUDE_46_PATTERNS : List String :=
  ["claude-opus-4", "claude-4-opus", "claude-opus-4-6"]

def CLAUDE_THINKING_PATTERNS : List String :=
  ["claude-3-5-sonnet", "claude-3.5-sonnet", "claude-3-7-sonnet",
   "claude-3.7-sonnet", "claude-4", "claude-sonnet-4", "claude-opus-4"]

def DEFAULT_THINKING_BUDGET : Int := 10000

/-- Does `needle` occur anywhere in `hay` (`String.prototype.includes`)? -/
def containsSub (hay needle : List Char) : Bool :=
  match hay with
  | [] => beginsWithL [] needle
  | _ :: t => beginsWithL hay needle || containsSub t needle

def strIncludes (s sub : String) : Bool := containsSub s.data sub.data

/-- `String.prototype.toLowerCase` on the basic latin range. -/
def lowerStr (s : String) : String := String.mk (s.data.map Char.toLower)

def isClaude46Model (modelId : String) : Bool :=
  CLAUDE_46_PATTERNS.any fun p => strIncludes (lowerStr modelId) p

def isClaudeThinkingModel (modelId : String) : Bool :=
  CLAUDE_THINKING_PATTERNS.any fun p => strIncludes (lowerStr modelId) p

/-- JavaScript ToNumber on a trimmed string for the integer subset (empty
string is 0); fractional, exponent and hex forms are outside the integer
model and collapse to NaN (`none`). -/
def strToNumber? (s : String) : Option Int :=
  match (strTrim s).data with
  | [] => some 0
  | '-' :: t => if t ≠ [] && t.all Char.isDigit then some (-(((digitsVal 0 t).1 : Nat) : Int)) else none
  | t => if t.all Char.isDigit then some (((digitsVal 0 t).1 : Nat) : Int) else none

/-- JavaScript ToNumber, with `none` for NaN.  Arrays and objects coerce
through their string form in the host language; no claim exercises a
non-scalar `max_tokens`, so they collapse to NaN here. -/
def jsToNumber? : Json → Option Int
  | .null => some 0
  | .bool b => some (if b then 1 else 0)
  | .num n => some n
  | .str s => strToNumber? s
  | .arr _ => none
  | .obj _ => none
  | .protoFn _ => none

/-- The guard `!body.max_tokens || body.max_tokens < threshold` (NaN
comparisons are false). -/
def maxTokensBelow (v : Option Json) (threshold : Int) : Bool :=
  match v with
  | none => true
  | some v =>
      if jsTruthy v then
        match jsToNumber? v with
        | some n => decide (n < threshold)
        | none => false
      else true

/-- `injectThinking`: skip if a `thinking` field is present; otherwise
classify the model id (Claude 4.6 family first, then the broader thinking
family) and inject the corresponding thinking configuration, raising
`max_tokens` to budget + 4096 when absent or below.  A truthy non-string
`model` makes the source throw a TypeError inside toLowerCase (caught by
the caller); that path is outside the JSON model and outside every claim,
and the falsy-model guard returns the body unchanged. -/
def injectThinking (body : Json) : Json :=
  match body.getField? "thinking" with
  | some _ => body
  | none =>
      match body.getField? "model" with
      | some (.str m) =>
          if m = "" then body
          else if isClaude46Model m then
            body.setField "thinking" (.obj [("type", .str "adaptive")])
          else if isClaudeThinkingModel m then
            let b1 := body.setField "thinking"
              (.obj [("type", .str "enabled"), ("budget_tokens", .num DEFAULT_THINKING_BUDGET)])
            if maxTokensBelow (body.getField? "max_tokens") (DEFAULT_THINKING_BUDGET + 4096) then
              b1.setField "max_tokens" (.num (DEFAULT_THINKING_BUDGET + 4096))
            else b1
          else body
      | _ => body

-- ============================================================
-- server.ts : system prompt substitution
-- ============================================================

mutual

/-- JavaScript string coercion of a JSON value (used by `Array.prototype.join`
over the captured system segment texts). -/
def jsString : Json → String
  | .null => "null"
  | .bool true => "true"
  | .bool false => "false"
  | .num n => toString n
  | .str s => s
  | .arr xs => jsStringList xs
  | .obj _ => "[object Object]"
  | .protoFn n => "function " ++ n ++ "() " ++ "\x7b" ++ " [native code] " ++ "\x7d"

def jsStringList : List Json → String
  | [] => ""
  | [x] => jsString x
  | x :: xs => jsString x ++ "," ++ jsStringList xs

end

/-- Capture the client system prompt as flattened text: a truthy string is
taken as-is; for an array, the texts of segments with type "text" and a
truthy `text` are joined with a blank line (empty selection captures
nothing); any other value captures nothing. -/
def captureClientSystem (body : Json) : Option String :=
  match body.getField? "system" with
  | some v =>
      if jsTruthy v then
        match v with
        | .str s => some s
        | .arr segs =>
            let texts := segs.filter fun seg =>
              (match seg.getField? "type" with
               | some (.str t) => t = "text"
               | _ => false) &&
              (match seg.getField? "text" with
               | some tv => jsTruthy tv
               | none => false)
            if texts.isEmpty then none
            else some (String.intercalate "\n\n"
              (texts.map fun seg => jsString ((seg.getField? "text").getD .null)))
        | _ => none
      else none
  | none => none

/-- The delimited block prepended to the first user message. -/
def sysInstructionsBlock (clientSystem : String) : String :=
  "[System Instructions]\n" ++ clientSystem ++ "\n[End System Instructions]\n\n"

def isUserMessage (m : Json) : Bool :=
  match m.getField? "role" with
  | some (.str r) => r = "user"
  | _ => false

/-- Prepend the delimited client system block to a message: string content is
string-prepended, array content gains a leading text block, any other
content shape is left alone. -/
def prependSystemToMessage (cs : String) (msg : Json) : Json :=
  match msg.getField? "content" with
  | some (.str c) => msg.setField "content" (.str (sysInstructionsBlock cs ++ c))
  | some (.arr blocks) =>
      msg.setField "content"
        (.arr (.obj [("type", .str "text"), ("text", .str (sysInstructionsBlock cs))] :: blocks))
  | _ => msg

/-- `injectSystemPrompt`: capture the client system text, unconditionally
overwrite `system` with the two canonical segments, then relocate a
non-empty captured text to the first user message (if any). -/
def injectSystemPrompt (body : Json) : Json :=
  let clientSystem := captureClientSystem body
  let b1 := body.setField "system" CLAUDE_CODE_SYSTEM
  match clientSystem with
  | some cs =>
      if cs = "" then b1
      else
        match b1.getField? "messages" with
        | some (.arr ms) =>
            match ms.findIdx? isUserMessage with
            | some i =>
                b1.setField "messages"
                  (.arr (ms.set i (prependSystemToMessage cs (ms.getD i .null))))
            | none => b1
        | _ => b1
  | none => b1

/-- The full request transform applied by `handleRequest` to a Messages
request body. -/
def requestPipeline (body : Json) : Json :=
  injectThinking (injectSystemPrompt (transformRequestBody (cleanUndefined body)))

-- ============================================================
-- server.ts : SSE stream relay (forwardRequest, streaming branch)
-- ============================================================

/-- Rewrite of one complete SSE event body:
`part.split("\n").map(transformSSELine).join("\n")`. -/
def transformEventBody (part : String) : String :=
  joinNl ((splitLines part.data).map fun l => transformSSELine (String.mk l))

/-- Helper for `splitBlank`: extend the first remaining part with a
character. -/
def consPart (c : Char) : List (List Char) × List Char → List (List Char) × List Char
  | ([], last) => ([], c :: last)
  | (p :: ps, last) => ((c :: p) :: ps, last)

/-- `buffer.split("\n\n")` followed by `parts.pop()`: the complete
(delimiter-terminated) events in order, and the trailing buffer remainder.
Delimiter occurrences are found left to right, non-overlapping, exactly as
the host split does. -/
def splitBlank : List Char → List (List Char) × List Char
  | [] => ([], [])
  | [c] => ([], [c])
  | a :: b :: rest =>
      if a = '\n' && b = '\n' then
        let r := splitBlank rest
        (([] : List Char) :: r.1, r.2)
      else consPart a (splitBlank (b :: rest))

/-- One `data` callback of the relay: append the chunk to the buffer, split
off the complete events, forward each rewritten with its blank-line
terminator, and keep the remainder buffered. -/
def relayFeed (st : List String × List Char) (chunk : List Char) : List String × List Char :=
  let r := splitBlank (st.2 ++ chunk)
  (st.1 ++ r.1.map (fun p => transformEventBody (String.mk p) ++ "\n\n"), r.2)

/-- The full relay over a fragmented stream: fold the chunks through the
buffer loop, then flush a non-blank trailing buffer on stream end.  The
result is the ordered sequence of forwarded, rewritten events. -/
def relayRun (chunks : List String) : List String :=
  let st := chunks.foldl (fun st c => relayFeed st c.data) ([], [])
  st.1 ++
    (if strTrim (String.mk st.2) = "" then []
     else [transformEventBody (String.mk st.2) ++ "\n\n"])

-- ============================================================
-- server.ts : byte-level chunk delivery (Buffer.toString("utf-8"))
-- ============================================================

/-- The replacement character U+FFFD emitted for invalid byte sequences. -/
def replChar : Char := Char.ofNat 0xFFFD

def isContByte (b : Nat) : Bool := 0x80 ≤ b && b ≤ 0xBF

/-- Allowed second byte after a three-byte lead (the E0/ED rows exclude
overlong and surrogate encodings). -/
def lead3SecondOk (b b2 : Nat) : Bool :=
  if b = 0xE0 then 0xA0 ≤ b2 && b2 ≤ 0xBF
  else if b = 0xED then 0x80 ≤ b2 && b2 ≤ 0x9F
  else isContByte b2

/-- Allowed second byte after a four-byte lead (the F0/F4 rows exclude
overlong and beyond-U+10FFFF encodings). -/
def lead4SecondOk (b b2 : Nat) : Bool :=
  if b = 0xF0 then 0x90 ≤ b2 && b2 ≤ 0xBF
  else if b = 0xF4 then 0x80 ≤ b2 && b2 ≤ 0x8F
  else isContByte b2

def dec2val (b b2 : Nat) : Char := Char.ofNat ((b - 0xC0) * 0x40 + (b2 - 0x80))

def dec3val (b b2 b3 : Nat) : Char :=
  Char.ofNat ((b - 0xE0) * 0x1000 + (b2 - 0x80) * 0x40 + (b3 - 0x80))

def dec4val (b b2 b3 b4 : Nat) : Char :=
  Char.ofNat ((b - 0xF0) * 0x40000 + (b2 - 0x80) * 0x1000 + (b3 - 0x80) * 0x40 + (b4 - 0x80))

/-- `Buffer.prototype.toString("utf-8")`: WHATWG replacement decoding of a
byte sequence (bytes as naturals below 256).  Valid sequences decode to
their scalar values; each maximal invalid subpart — including a multi-byte
character truncated at the end of a chunk, and a stray continuation byte
at the start of one — decodes to U+FFFD, resuming at the offending
byte. -/
def utf8Decode : List Nat → List Char
  | [] => []
  | [b] => if b ≤ 0x7F then [Char.ofNat b] else [replChar]
  | [b, b2] =>
      if b ≤ 0x7F then Char.ofNat b :: utf8Decode [b2]
      else if 0xC2 ≤ b ∧ b ≤ 0xDF then
        if isContByte b2 then [dec2val b b2]
        else replChar :: utf8Decode [b2]
      else if 0xE0 ≤ b ∧ b ≤ 0xEF then
        if lead3SecondOk b b2 then [replChar]
        else replChar :: utf8Decode [b2]
      else if 0xF0 ≤ b ∧ b ≤ 0xF4 then
        if lead4SecondOk b b2 then [replChar]
        else replChar :: utf8Decode [b2]
      else replChar :: utf8Decode [b2]
  | [b, b2, b3] =>
      if b ≤ 0x7F then Char.ofNat b :: utf8Decode [b2, b3]
      else if 0xC2 ≤ b ∧ b ≤ 0xDF then
        if isContByte b2 then dec2val b b2 :: utf8Decode [b3]
        else replChar :: utf8Decode [b2, b3]
      else if 0xE0 ≤ b ∧ b ≤ 0xEF then
        if lead3SecondOk b b2 then
          if isContByte b3 then [dec3val b b2 b3]
          else replChar :: utf8Decode [b3]
        else replChar :: utf8Decode [b2, b3]
      else if 0xF0 ≤ b ∧ b ≤ 0xF4 then
        if lead4SecondOk b b2 then
          if isContByte b3 then [replChar]
          else replChar :: utf8Decode [b3]
        else replChar :: utf8Decode [b2, b3]
      else replChar :: utf8Decode [b2, b3]
  | b :: b2 :: b3 :: b4 :: rest =>
      if b ≤ 0x7F then Char.ofNat b :: utf8Decode (b2 :: b3 :: b4 :: rest)
      else if 0xC2 ≤ b ∧ b ≤ 0xDF then
        if isContByte b2 then dec2val b b2 :: utf8Decode (b3 :: b4 :: rest)
        else replChar :: utf8Decode (b2 :: b3 :: b4 :: rest)
      else if 0xE0 ≤ b ∧ b ≤ 0xEF then
        if lead3SecondOk b b2 then
          if isContByte b3 then dec3val b b2 b3 :: utf8Decode (b4 :: rest)
          else replChar :: utf8Decode (b3 :: b4 :: rest)
        else replChar :: utf8Decode (b2 :: b3 :: b4 :: rest)
      else if 0xF0 ≤ b ∧ b ≤ 0xF4 then
        if lead4SecondOk b b2 then
          if isContByte b3 then
            if isContByte b4 then dec4val b b2 b3 b4 :: utf8Decode rest
            else replChar :: utf8Decode (b4 :: rest)
          else replChar :: utf8Decode (b3 :: b4 :: rest)
        else replChar :: utf8Decode (b2 :: b3 :: b4 :: rest)
      else replChar :: utf8Decode (b2 :: b3 :: b4 :: rest)

/-- Standard UTF-8 encoding of one scalar value. -/
def utf8EncodeChar (c : Char) : List Nat :=
  if c.toNat ≤ 0x7F then [c.toNat]
  else if c.toNat ≤ 0x7FF then [0xC0 + c.toNat / 0x40, 0x80 + c.toNat % 0x40]
  else if c.toNat ≤ 0xFFFF then
    [0xE0 + c.toNat / 0x1000, 0x80 + c.toNat / 0x40 % 0x40, 0x80 + c.toNat % 0x40]
  else
    [0xF0 + c.toNat / 0x40000, 0x80 + c.toNat / 0x1000 % 0x40,
     0x80 + c.toNat / 0x40 % 0x40, 0x80 + c.toNat % 0x40]

def utf8Encode (s : String) : List Nat := (s.data.map utf8EncodeChar).flatten

/-- The SSE relay over the delivered byte chunks: `forwardRequest` decodes
every chunk independently with `chunk.toString("utf-8")` before appending
it to the accumulation buffer, so a multi-byte character split across
chunk boundaries is decoded as replacement characters. -/
def relayRunBytes (chunks : List (List Nat)) : List String :=
  relayRun (chunks.map fun c => String.mk (utf8Decode c))

-- ============================================================
-- Helper lemmas : field access and update
-- ============================================================

theorem lookupKV_setKV_self (kvs : List (String × Json)) (k : String) (v : Json) :
    lookupKV (setKV kvs k v) k = some v := by
  induction kvs with
  | nil => simp [setKV, lookupKV]
  | cons kv t ih =>
      obtain ⟨k1, v1⟩ := kv
      by_cases h : k1 = k
      · simp [setKV, h, lookupKV]
      · simp [setKV, h, lookupKV, ih]

theorem lookupKV_setKV_ne (kvs : List (String × Json)) (k k2 : String) (v : Json)
    (h : k ≠ k2) : lookupKV (setKV kvs k v) k2 = lookupKV kvs k2 := by
  induction kvs with
  | nil => simp [setKV, lookupKV, h]
  | cons kv t ih =>
      obtain ⟨k1, v1⟩ := kv
      by_cases h1 : k1 = k
      · subst h1
        simp [setKV, lookupKV, h]
      · simp [setKV, h1, lookupKV, ih]

theorem getField?_setField_self (kvs : List (String × Json)) (k : String) (v : Json) :
    ((Json.obj kvs).setField k v).getField? k = some v := by
  simp [Json.setField, Json.getField?, lookupKV_setKV_self]

theorem getField?_setField_ne (kvs : List (String × Json)) (k k2 : String) (v : Json)
    (h : k ≠ k2) : ((Json.obj kvs).setField k v).getField? k2 = lookupKV kvs k2 := by
  simp [Json.setField, Json.getField?, lookupKV_setKV_ne _ _ _ _ h]

theorem getField?_some_obj {j : Json} {k : String} {v : Json}
    (h : j.getField? k = some v) : ∃ kvs, j = Json.obj kvs := by
  cases j <;> simp [Json.getField?] at h ⊢

-- ============================================================
-- Helper lemmas : cleanUndefined
-- ============================================================

theorem isSentinel_eq_false_iff (j : Json) : isSentinel j = false ↔ j ≠ .str "[undefined]" := by
  cases j <;> simp [isSentinel]

theorem mem_cleanList {y : Json} {xs : List Json} (hy : y ∈ cleanList xs) :
    ∃ x ∈ xs, isSentinel x = false ∧ y = cleanUndefined x := by
  induction xs with
  | nil => simp [cleanList] at hy
  | cons x t ih =>
      rw [cleanList] at hy
      by_cases hx : isSentinel x
      · rw [if_pos hx] at hy
        obtain ⟨x0, hx0, hs0, he0⟩ := ih hy
        exact ⟨x0, List.mem_cons_of_mem _ hx0, hs0, he0⟩
      · rw [if_neg hx] at hy
        rcases List.mem_cons.mp hy with h | h
        · exact ⟨x, List.mem_cons_self _ _, Bool.of_not_eq_true hx, h⟩
        · obtain ⟨x0, hx0, hs0, he0⟩ := ih h
          exact ⟨x0, List.mem_cons_of_mem _ hx0, hs0, he0⟩

theorem mem_cleanObj {kv : String × Json} {kvs : List (String × Json)}
    (hkv : kv ∈ cleanObj kvs) :
    ∃ kv0 ∈ kvs, isSentinel kv0.2 = false ∧ kv = (kv0.1, cleanUndefined kv0.2) := by
  induction kvs with
  | nil => simp [cleanObj] at hkv
  | cons hd t ih =>
      obtain ⟨k0, v0⟩ := hd
      rw [cleanObj] at hkv
      by_cases hx : isSentinel v0
      · rw [if_pos hx] at hkv
        obtain ⟨kv0, h0, hs0, he0⟩ := ih hkv
        exact ⟨kv0, List.mem_cons_of_mem _ h0, hs0, he0⟩
      · rw [if_neg hx] at hkv
        rcases List.mem_cons.mp hkv with h | h
        · exact ⟨(k0, v0), List.mem_cons_self _ _, Bool.of_not_eq_true hx, h⟩
        · obtain ⟨kv0, h0, hs0, he0⟩ := ih h
          exact ⟨kv0, List.mem_cons_of_mem _ h0, hs0, he0⟩

theorem mem_cleanList_of_mem {x : Json} {xs : List Json} (hx : x ∈ xs)
    (hs : isSentinel x = false) : cleanUndefined x ∈ cleanList xs := by
  induction xs with
  | nil => simp at hx
  | cons hd t ih =>
      rcases List.mem_cons.mp hx with h | h
      · subst h
        rw [cleanList, if_neg (by simp [hs])]
        exact List.mem_cons_self _ _
      · rw [cleanList]
        by_cases hh : isSentinel hd
        · rw [if_pos hh]; exact ih h
        · rw [if_neg hh]; exact List.mem_cons_of_mem _ (ih h)

theorem lookupKV_cleanObj {kvs : List (String × Json)} {k : String} {v : Json}
    (h : lookupKV kvs k = some v) (hs : isSentinel v = false) :
    lookupKV (cleanObj kvs) k = some (cleanUndefined v) := by
  induction kvs with
  | nil => simp [lookupKV] at h
  | cons hd t ih =>
      obtain ⟨k0, v0⟩ := hd
      rw [lookupKV] at h
      by_cases hk : k0 = k
      · rw [if_pos hk] at h
        injection h with h
        subst h
        rw [cleanObj, if_neg (by simp [hs]), lookupKV, if_pos hk]
      · rw [if_neg hk] at h
        rw [cleanObj]
        by_cases hv0 : isSentinel v0
        · rw [if_pos hv0]; exact ih h
        · rw [if_neg hv0, lookupKV, if_neg hk]; exact ih h

theorem getField?_cleanUndefined {kvs : List (String × Json)} {k : String} {v : Json}
    (h : (Json.obj kvs).getField? k = some v) (hs : isSentinel v = false) :
    (cleanUndefined (Json.obj kvs)).getField? k = some (cleanUndefined v) := by
  rw [Json.getField?] at h
  rw [cleanUndefined, Json.getField?]
  exact lookupKV_cleanObj h hs

/-- Member-wise induction principle for the nested `Json` tree. -/
theorem json_ind (P : Json → Prop) (h0 : P .null) (h1 : ∀ b, P (.bool b))
    (h2 : ∀ n, P (.num n)) (h3 : ∀ s, P (.str s))
    (h4 : ∀ xs, (∀ x ∈ xs, P x) → P (.arr xs))
    (h5 : ∀ kvs, (∀ kv ∈ kvs, P kv.2) → P (.obj kvs))
    (h6 : ∀ nm, P (.protoFn nm)) (j : Json) : P j := by
  have H : ∀ n (j : Json), sizeOf j ≤ n → P j := by
    intro n
    induction n with
    | zero =>
        intro j hj
        exfalso
        cases j <;> simp at hj
    | succ n ih =>
        intro j hj
        cases j with
        | null => exact h0
        | bool b => exact h1 b
        | num m => exact h2 m
        | str s => exact h3 s
        | protoFn nm => exact h6 nm
        | arr xs =>
            refine h4 xs fun x hx => ih x ?_
            have hlt := List.sizeOf_lt_of_mem hx
            simp at hj
            omega
        | obj kvs =>
            refine h5 kvs fun kv hkv => ih kv.2 ?_
            have hlt := List.sizeOf_lt_of_mem hkv
            have hp : sizeOf kv.2 < sizeOf kv := by
              obtain ⟨a, b⟩ := kv
              simp
            simp at hj
            omega
  exact H (sizeOf j) j (Nat.le_refl _)

theorem hasSentinelList_eq_false {xs : List Json}
    (h : ∀ x ∈ xs, hasSentinel x = false) : hasSentinelList xs = false := by
  induction xs with
  | nil => rfl
  | cons hd t ih =>
      rw [hasSentinelList]
      simp only [Bool.or_eq_false_iff]
      exact ⟨h hd (List.mem_cons_self _ _), ih fun x hx => h x (List.mem_cons_of_mem _ hx)⟩

theorem hasSentinelObj_eq_false {kvs : List (String × Json)}
    (h : ∀ kv ∈ kvs, hasSentinel kv.2 = false) : hasSentinelObj kvs = false := by
  induction kvs with
  | nil => rfl
  | cons hd t ih =>
      obtain ⟨k, v⟩ := hd
      rw [hasSentinelObj]
      simp only [Bool.or_eq_false_iff]
      exact ⟨h (k, v) (List.mem_cons_self _ _), ih fun kv hkv => h kv (List.mem_cons_of_mem _ hkv)⟩

-- ============================================================
-- C1 : Field Sanitizer
-- ============================================================

/-- C1 (counterexample): the claim promises that for every value tree the
sanitizer output contains the sentinel at no depth, but a bare sentinel
scalar is returned unchanged — `cleanUndefined "[undefined]"` still
contains the sentinel. -/
theorem c1_sanitize_counterexample :
    cleanUndefined (Json.str "[undefined]") = Json.str "[undefined]" ∧
      hasSentinel (cleanUndefined (Json.str "[undefined]")) = true := by
  constructor
  · rfl
  · rfl

/-- Sentinel-absence half of the sanitizer contract: every input other
than the bare sentinel scalar sanitizes to a tree without the sentinel. -/
theorem cleanUndefined_no_sentinel (j : Json) (h : j ≠ Json.str "[undefined]") :
    hasSentinel (cleanUndefined j) = false := by
  induction j using json_ind with
  | h0 => rfl
  | h1 b => rfl
  | h2 n => rfl
  | h3 s =>
      have e : cleanUndefined (Json.str s) = Json.str s := rfl
      rw [e, hasSentinel]
      simpa using fun hs => h (by rw [hs])
  | h6 nm => rfl
  | h4 xs ih =>
      rw [cleanUndefined, hasSentinel]
      refine hasSentinelList_eq_false fun y hy => ?_
      obtain ⟨x, hx, hsx, he⟩ := mem_cleanList hy
      subst he
      exact ih x hx ((isSentinel_eq_false_iff x).mp hsx)
  | h5 kvs ih =>
      rw [cleanUndefined, hasSentinel]
      refine hasSentinelObj_eq_false fun kv hkv => ?_
      obtain ⟨kv0, hk0, hs0, he⟩ := mem_cleanObj hkv
      subst he
      exact ih kv0 hk0 ((isSentinel_eq_false_iff kv0.2).mp hs0)

theorem cleanList_eq (xs : List Json) :
    cleanList xs = (xs.filter fun x => !isSentinel x).map cleanUndefined := by
  induction xs with
  | nil => rfl
  | cons x t ih =>
      rw [cleanList]
      by_cases hx : isSentinel x
      · rw [if_pos hx]
        simp [List.filter_cons, hx, ih]
      · rw [if_neg hx]
        simp only [Bool.not_eq_true] at hx
        simp [List.filter_cons, hx, ih]

theorem cleanObj_eq (kvs : List (String × Json)) :
    cleanObj kvs =
      (kvs.filter fun kv => !isSentinel kv.2).map fun kv => (kv.1, cleanUndefined kv.2) := by
  induction kvs with
  | nil => rfl
  | cons kv t ih =>
      obtain ⟨k, v⟩ := kv
      rw [cleanObj]
      by_cases hx : isSentinel v
      · rw [if_pos hx]
        simp [List.filter_cons, hx, ih]
      · rw [if_neg hx]
        simp only [Bool.not_eq_true] at hx
        simp [List.filter_cons, hx, ih]

/-- C1 (amended): the sanitizer output is structurally identical to the
input except for the removals, and sentinel-free when the input is not the
bare sentinel scalar: an array becomes the order-preserving filter of its
non-sentinel elements, each recursively sanitized; an object keeps its
remaining keys in order with values recursively sanitized; every other
value is returned unchanged; and for every input other than the sentinel
scalar itself — the one value returned unchanged with the sentinel still
in it — the output contains the sentinel string at no depth. -/
theorem c1_sanitize_contract :
    (∀ xs, cleanUndefined (.arr xs) =
        .arr ((xs.filter fun x => !isSentinel x).map cleanUndefined)) ∧
    (∀ kvs, cleanUndefined (.obj kvs) =
        .obj ((kvs.filter fun kv => !isSentinel kv.2).map
          fun kv => (kv.1, cleanUndefined kv.2))) ∧
    (∀ j, (∀ xs, j ≠ .arr xs) → (∀ kvs, j ≠ .obj kvs) → cleanUndefined j = j) ∧
    (∀ j, j ≠ .str "[undefined]" → hasSentinel (cleanUndefined j) = false) := by
  refine ⟨?_, ?_, ?_, cleanUndefined_no_sentinel⟩
  · intro xs
    rw [cleanUndefined, cleanList_eq]
  · intro kvs
    rw [cleanUndefined, cleanObj_eq]
  · intro j hna hno
    cases j <;> first
      | rfl
      | exact absurd rfl (hna _)
      | exact absurd rfl (hno _)

/-- C1 witness: the contract applied to concrete inputs exercising the
array, scalar and sentinel-absence conjuncts. -/
theorem c1_sanitize_contract_witness :
    cleanUndefined (Json.arr [Json.str "[undefined]", Json.num 1, Json.str "keep"]) =
      Json.arr ((([Json.str "[undefined]", Json.num 1, Json.str "keep"].filter
        fun x => !isSentinel x)).map cleanUndefined) ∧
    cleanUndefined (Json.num 7) = Json.num 7 ∧
    hasSentinel (cleanUndefined (Json.obj
      [("a", Json.str "[undefined]"),
       ("b", Json.arr [Json.str "[undefined]", Json.num 1,
          Json.obj [("c", Json.str "[undefined]")]])])) = false :=
  ⟨c1_sanitize_contract.1 _,
   c1_sanitize_contract.2.2.1 (Json.num 7) (by intro xs; simp) (by intro kvs; simp),
   c1_sanitize_contract.2.2.2 _ (by simp)⟩

-- ============================================================
-- Helper lemmas : frame properties of the augmenter steps
-- ============================================================

theorem getField?_setField_ne_any (j : Json) (k k2 : String) (v : Json) (h : k ≠ k2) :
    (j.setField k v).getField? k2 = j.getField? k2 := by
  cases j with
  | obj kvs => exact getField?_setField_ne kvs k k2 v h
  | _ => rfl

theorem setField_obj_shape (j : Json) (k : String) (v : Json) :
    (∃ kvs, j = Json.obj kvs ∧ j.setField k v = Json.obj (setKV kvs k v)) ∨
      j.setField k v = j := by
  cases j with
  | obj kvs => exact Or.inl ⟨kvs, rfl, rfl⟩
  | _ => exact Or.inr rfl

/-- `injectSystemPrompt` either only substitutes `system`, or additionally
rewrites the `messages` array of the substituted body. -/
theorem injectSystemPrompt_cases (body : Json) :
    injectSystemPrompt body = body.setField "system" CLAUDE_CODE_SYSTEM ∨
    ∃ ms, injectSystemPrompt body =
      (body.setField "system" CLAUDE_CODE_SYSTEM).setField "messages" (Json.arr ms) := by
  rw [injectSystemPrompt]
  split
  · split
    · exact Or.inl rfl
    · split
      · split
        · exact Or.inr ⟨_, rfl⟩
        · exact Or.inl rfl
      · exact Or.inl rfl
  · exact Or.inl rfl

theorem getField?_injectSystemPrompt (body : Json) (k : String)
    (h1 : k ≠ "system") (h2 : k ≠ "messages") :
    (injectSystemPrompt body).getField? k = body.getField? k := by
  rcases injectSystemPrompt_cases body with h | ⟨ms, h⟩ <;> rw [h]
  · exact getField?_setField_ne_any _ _ _ _ fun he => h1 he.symm
  · rw [getField?_setField_ne_any _ _ _ _ fun he => h2 he.symm]
    exact getField?_setField_ne_any _ _ _ _ fun he => h1 he.symm

/-- `injectThinking` only ever touches `thinking` and `max_tokens`. -/
theorem getField?_injectThinking (body : Json) (k : String)
    (h1 : k ≠ "thinking") (h2 : k ≠ "max_tokens") :
    (injectThinking body).getField? k = body.getField? k := by
  rw [injectThinking]
  split
  · rfl
  · split
    · split
      · rfl
      · split
        · exact getField?_setField_ne_any _ _ _ _ fun he => h1 he.symm
        · split
          · split
            · rw [getField?_setField_ne_any _ _ _ _ fun he => h2 he.symm]
              exact getField?_setField_ne_any _ _ _ _ fun he => h1 he.symm
            · exact getField?_setField_ne_any _ _ _ _ fun he => h1 he.symm
          · rfl
    · rfl

-- ============================================================
-- C2 : system is always exactly the two canonical segments
-- ============================================================

/-- C2: after `injectSystemPrompt`, the `system` field of any object body is
exactly the two fixed canonical segments, regardless of what the client
sent (no system, a plain string, or a segment array). -/
theorem c2_system_always_canonical (kvs : List (String × Json)) :
    (injectSystemPrompt (Json.obj kvs)).getField? "system" = some CLAUDE_CODE_SYSTEM := by
  rcases injectSystemPrompt_cases (Json.obj kvs) with h | ⟨ms, h⟩ <;> rw [h]
  · exact getField?_setField_self kvs "system" CLAUDE_CODE_SYSTEM
  · rw [getField?_setField_ne_any _ _ _ _ (by simp)]
    exact getField?_setField_self kvs "system" CLAUDE_CODE_SYSTEM

-- ============================================================
-- Helper lemmas : ASCII uppercase behaviour
-- ============================================================

theorem toNat_ofNat_of_lt {m : Nat} (h : m < 55296) : (Char.ofNat m).toNat = m := by
  rw [Char.ofNat, dif_pos (Or.inl h)]
  rfl

theorem toUpper_eq (c : Char) :
    c.toUpper = if 97 ≤ c.toNat ∧ c.toNat ≤ 122 then Char.ofNat (c.toNat - 32) else c := by
  rfl

theorem toNat_toUpper (c : Char) :
    c.toUpper.toNat = if 97 ≤ c.toNat ∧ c.toNat ≤ 122 then c.toNat - 32 else c.toNat := by
  rw [toUpper_eq]
  split
  · next h => exact toNat_ofNat_of_lt (by omega)
  · rfl

/-- Uppercasing never yields a lowercase basic latin letter. -/
theorem toUpper_not_lower (c : Char) :
    ¬(97 ≤ c.toUpper.toNat ∧ c.toUpper.toNat ≤ 122) := by
  rw [toNat_toUpper]
  split
  · next h => omega
  · next h => exact h

theorem toUpper_toUpper (c : Char) : c.toUpper.toUpper = c.toUpper := by
  rw [toUpper_eq c.toUpper, if_neg (toUpper_not_lower c)]

theorem string_eq_empty_iff (s : String) : s = "" ↔ s.data = [] := by
  constructor
  · intro h
    rw [h]
  · intro h
    cases s with
    | mk l =>
        cases h
        rfl

theorem upperFirst_of_data {s : String} {c : Char} {cs : List Char} (h : s.data = c :: cs) :
    upperFirst s = String.mk (c.toUpper :: cs) := by
  rw [upperFirst, h]

theorem upperFirst_ne_empty {s : String} (hs : s ≠ "") : upperFirst s ≠ "" := by
  rcases hdata : s.data with _ | ⟨c, cs⟩
  · exact absurd ((string_eq_empty_iff s).mpr hdata) hs
  · rw [upperFirst_of_data hdata]
    intro h
    have := (string_eq_empty_iff _).mp h
    simp at this

/-- A lookup-table key (all keys start with a lowercase letter) is never the
result of uppercasing a first letter. -/
theorem key_ne_mk_toUpper (k : String) (d : Char) (ds : List Char) (c : Char) (cs : List Char)
    (hk : k.data = d :: ds) (h97 : 97 ≤ d.toNat) (h122 : d.toNat ≤ 122) :
    k ≠ String.mk (c.toUpper :: cs) := by
  intro h
  have hd := congrArg String.data h
  rw [hk] at hd
  have hd2 : d :: ds = c.toUpper :: cs := hd
  injection hd2 with hd1 _
  exact toUpper_not_lower c (by rw [← hd1]; exact ⟨h97, h122⟩)

theorem lookupName_upperFirst (s : String) (hs : s ≠ "") :
    lookupName NAME_MAP (upperFirst s) = none := by
  rcases hdata : s.data with _ | ⟨c, cs⟩
  · exact absurd ((string_eq_empty_iff s).mpr hdata) hs
  · rw [upperFirst_of_data hdata, NAME_MAP]
    rw [lookupName, if_neg (key_ne_mk_toUpper _ 't' _ c cs rfl (by decide) (by decide))]
    rw [lookupName, if_neg (key_ne_mk_toUpper _ 'w' _ c cs rfl (by decide) (by decide))]
    rw [lookupName, if_neg (key_ne_mk_toUpper _ 'g' _ c cs rfl (by decide) (by decide))]
    rfl

theorem upperFirst_upperFirst (s : String) : upperFirst (upperFirst s) = upperFirst s := by
  rcases hdata : s.data with _ | ⟨c, cs⟩
  · have h1 : upperFirst s = s := by rw [upperFirst, hdata]
    rw [h1, h1]
  · rw [upperFirst_of_data hdata, upperFirst_of_data (show (String.mk (c.toUpper :: cs)).data = c.toUpper :: cs from rfl), toUpper_toUpper]

theorem toUpper_eq_underscore {c : Char} (h : c.toUpper = '_') : c = '_' := by
  have hn := congrArg Char.toNat h
  have h95 : ('_').toNat = 95 := rfl
  rw [toNat_toUpper, h95] at hn
  split at hn
  · next hr => omega
  · calc c = Char.ofNat c.toNat := (Char.ofNat_toNat c).symm
      _ = Char.ofNat 95 := by rw [hn]
      _ = '_' := rfl

theorem upperFirst_eq_underscore_key {s k : String} {c : Char} {cs ds : List Char}
    (hdata : s.data = c :: cs) (hk : k.data = '_' :: ds)
    (h : String.mk (c.toUpper :: cs) = k) : s = k := by
  have hd := congrArg String.data h
  rw [hk] at hd
  have hd2 : c.toUpper :: cs = '_' :: ds := hd
  injection hd2 with h1 h2
  have hdk : s.data = k.data := by rw [hdata, hk, toUpper_eq_underscore h1, h2]
  cases s
  cases k
  cases hdk
  rfl

/-- Uppercasing the first letter of a key that is neither empty nor itself
an inherited member never lands on an inherited Object.prototype member
key: those start with a lowercase letter or an underscore. -/
theorem upperFirst_notin_proto {s : String} (hs : s ≠ "")
    (hnp : s ∉ OBJECT_PROTOTYPE_MEMBERS) : upperFirst s ∉ OBJECT_PROTOTYPE_MEMBERS := by
  intro hmem
  rcases hdata : s.data with _ | ⟨c, cs⟩
  · exact absurd ((string_eq_empty_iff s).mpr hdata) hs
  · rw [upperFirst_of_data hdata] at hmem
    simp only [OBJECT_PROTOTYPE_MEMBERS, List.mem_cons, List.not_mem_nil, or_false] at hmem
    rcases hmem with h|h|h|h|h|h|h|h|h|h|h|h
    · exact key_ne_mk_toUpper _ 'c' _ c cs rfl (by decide) (by decide) h.symm
    · exact key_ne_mk_toUpper _ 'h' _ c cs rfl (by decide) (by decide) h.symm
    · exact key_ne_mk_toUpper _ 'i' _ c cs rfl (by decide) (by decide) h.symm
    · exact key_ne_mk_toUpper _ 'p' _ c cs rfl (by decide) (by decide) h.symm
    · exact key_ne_mk_toUpper _ 't' _ c cs rfl (by decide) (by decide) h.symm
    · exact key_ne_mk_toUpper _ 't' _ c cs rfl (by decide) (by decide) h.symm
    · exact key_ne_mk_toUpper _ 'v' _ c cs rfl (by decide) (by decide) h.symm
    · exact hnp (by rw [upperFirst_eq_underscore_key hdata rfl h]; decide)
    · exact hnp (by rw [upperFirst_eq_underscore_key hdata rfl h]; decide)
    · exact hnp (by rw [upperFirst_eq_underscore_key hdata rfl h]; decide)
    · exact hnp (by rw [upperFirst_eq_underscore_key hdata rfl h]; decide)
    · exact hnp (by rw [upperFirst_eq_underscore_key hdata rfl h]; decide)

theorem mapName_upperFirst (s : String) (hs : s ≠ "")
    (hnp : s ∉ OBJECT_PROTOTYPE_MEMBERS) :
    mapName (some (.str (upperFirst s))) = some (.str (upperFirst s)) := by
  rw [mapName, if_neg (upperFirst_ne_empty hs)]
  simp only [lookupName_upperFirst s hs]
  rw [if_neg (upperFirst_notin_proto hs hnp), upperFirst_upperFirst]

-- ============================================================
-- C9 : Identifier Normalizer contract
-- ============================================================

/-- C9 (counterexample): the claim promises the first-character-uppercased
string for every input that is not a table key, but the untyped index
consults the prototype chain: for the inherited member key toString the
truthy inherited function is returned instead of a string. -/
theorem c9_mapName_counterexample :
    lookupName NAME_MAP "toString" = none ∧
    mapName (some (.str "toString")) = some (.protoFn "toString") ∧
    mapName (some (.str "toString")) ≠ some (.str (upperFirst "toString")) := by
  refine ⟨rfl, rfl, ?_⟩
  have h : mapName (some (.str "toString")) = some (.protoFn "toString") := rfl
  rw [h]
  simp

/-- C9 (amended): mapName returns the table-mapped canonical form when the
input exactly matches an own key of the static lookup table; for an input
matching a member key inherited from Object.prototype (constructor,
toString, hasOwnProperty, ...) it returns the truthy inherited member
itself (a function, not a string); every other name is returned with its
first character uppercased and the remainder unchanged; undefined, null,
empty and non-string inputs are returned unchanged, and the function never
raises; in particular todowrite maps to TodoWrite and my_tool to
My_tool. -/
theorem c9_mapName_amended :
    (∀ s c, lookupName NAME_MAP s = some c → mapName (some (.str s)) = some (.str c)) ∧
    (∀ s, s ≠ "" → lookupName NAME_MAP s = none → s ∈ OBJECT_PROTOTYPE_MEMBERS →
      mapName (some (.str s)) = some (.protoFn s)) ∧
    (∀ s, s ≠ "" → lookupName NAME_MAP s = none → s ∉ OBJECT_PROTOTYPE_MEMBERS →
      mapName (some (.str s)) = some (.str (upperFirst s))) ∧
    mapName none = none ∧
    mapName (some .null) = some .null ∧
    (∀ v, (∀ s, v ≠ .str s) → mapName (some v) = some v) ∧
    mapName (some (.str "")) = some (.str "") ∧
    mapName (some (.str "todowrite")) = some (.str "TodoWrite") ∧
    mapName (some (.str "my_tool")) = some (.str "My_tool") := by
  refine ⟨?_, ?_, ?_, rfl, rfl, ?_, rfl, rfl, rfl⟩
  · intro s c h
    have hs : s ≠ "" := by
      intro he
      subst he
      simp [NAME_MAP, lookupName] at h
    rw [mapName, if_neg hs, h]
  · intro s hs hnone hmem
    rw [mapName, if_neg hs]
    simp only [hnone]
    rw [if_pos hmem]
  · intro s hs hnone hnp
    rw [mapName, if_neg hs]
    simp only [hnone]
    rw [if_neg hnp]
  · intro v hv
    cases v <;> first | rfl | exact absurd rfl (hv _)

/-- C9 witness: the amended contract applied at concrete inputs covering
the own-key, inherited-member and uppercase branches. -/
theorem c9_mapName_amended_witness :
    mapName (some (.str "todowrite")) = some (.str "TodoWrite") ∧
    mapName (some (.str "hasOwnProperty")) = some (.protoFn "hasOwnProperty") ∧
    mapName (some (.str "my_tool")) = some (.str (upperFirst "my_tool")) :=
  ⟨c9_mapName_amended.1 "todowrite" "TodoWrite" rfl,
   c9_mapName_amended.2.1 "hasOwnProperty" (by decide) rfl (by decide),
   c9_mapName_amended.2.2.1 "my_tool" (by decide) rfl (by decide)⟩

-- ============================================================
-- C10 : mapName is idempotent
-- ============================================================

/-- C10: `mapName` is idempotent on every input (undefined, null, or any
value), so a name normalized on the request path is unchanged when the
normalizer runs again over streamed response events; this holds also at
the prototype-chain keys, whose non-string result passes through a second
application unchanged. -/
theorem c10_mapName_idempotent (x : Option Json) : mapName (mapName x) = mapName x := by
  match x with
  | none => rfl
  | some .null => rfl
  | some (.bool b) => rfl
  | some (.num n) => rfl
  | some (.arr xs) => rfl
  | some (.obj kvs) => rfl
  | some (.protoFn nm) => rfl
  | some (.str s) =>
      by_cases hs : s = ""
      · subst hs
        rfl
      · rw [mapName, if_neg hs]
        rcases hl : lookupName NAME_MAP s with _ | c
        · simp only [hl]
          by_cases hp : s ∈ OBJECT_PROTOTYPE_MEMBERS
          · rw [if_pos hp]
            rfl
          · rw [if_neg hp]
            exact mapName_upperFirst s hs hp
        · have hc : c = "TodoWrite" ∨ c = "WebFetch" ∨ c = "Google_Search" := by
            rw [NAME_MAP] at hl
            rw [lookupName] at hl
            split at hl
            · exact Or.inl (Option.some.inj hl).symm
            · rw [lookupName] at hl
              split at hl
              · exact Or.inr (Or.inl (Option.some.inj hl).symm)
              · rw [lookupName] at hl
                split at hl
                · exact Or.inr (Or.inr (Option.some.inj hl).symm)
                · rw [lookupName] at hl
                  exact absurd hl (by simp)
          rcases hc with h | h | h <;> rw [h] <;> rfl

-- ============================================================
-- C5 : thinking injection
-- ============================================================

/-- C5 (counterexample): the claim promises enabled/10000 thinking for every
thinking-less request whose model contains claude-3-7-sonnet, but the
Claude 4.6 family test runs first: a model id containing both patterns gets
adaptive thinking instead. -/
theorem c5_thinking_counterexample :
    lookupKV [("model", Json.str "claude-opus-4-claude-3-7-sonnet")] "thinking" = none ∧
    strIncludes (lowerStr "claude-opus-4-claude-3-7-sonnet") "claude-3-7-sonnet" = true ∧
    (injectThinking (Json.obj [("model", Json.str "claude-opus-4-claude-3-7-sonnet")])).getField?
        "thinking" = some (Json.obj [("type", Json.str "adaptive")]) ∧
    (injectThinking (Json.obj [("model", Json.str "claude-opus-4-claude-3-7-sonnet")])).getField?
        "thinking" ≠
      some (Json.obj [("type", Json.str "enabled"), ("budget_tokens", Json.num 10000)]) := by
  refine ⟨rfl, rfl, rfl, ?_⟩
  have h : (injectThinking (Json.obj [("model", Json.str "claude-opus-4-claude-3-7-sonnet")])).getField?
      "thinking" = some (Json.obj [("type", Json.str "adaptive")]) := rfl
  rw [h]
  simp

theorem maxTokensBelow_num_true {n : Int} (h : n < 14096) :
    maxTokensBelow (some (.num n)) 14096 = true := by
  by_cases h0 : n = 0
  · subst h0
    rfl
  · rw [maxTokensBelow]
    rw [if_pos (by simp [jsTruthy, h0])]
    simp [jsToNumber?, h]

theorem maxTokensBelow_num_false {n : Int} (h : 14096 ≤ n) :
    maxTokensBelow (some (.num n)) 14096 = false := by
  rw [maxTokensBelow]
  rw [if_pos (by simp [jsTruthy]; omega)]
  simp [jsToNumber?]
  omega

/-- C5 (amended): when `thinking` is absent, the model id contains
claude-3-7-sonnet case-insensitively, and the model does not also match a
Claude 4.6 family pattern, `injectThinking` sets thinking to enabled with a
10000 budget and raises `max_tokens` to exactly 14096 when it was absent or
below, leaving a numeric `max_tokens` of at least 14096 unchanged; and a
request that already has a `thinking` field is returned entirely
unchanged. -/
theorem c5_injectThinking_amended :
    (∀ j v, j.getField? "thinking" = some v → injectThinking j = j) ∧
    (∀ kvs m,
      lookupKV kvs "thinking" = none →
      lookupKV kvs "model" = some (.str m) →
      strIncludes (lowerStr m) "claude-3-7-sonnet" = true →
      isClaude46Model m = false →
      ((injectThinking (Json.obj kvs)).getField? "thinking" =
          some (.obj [("type", .str "enabled"), ("budget_tokens", .num 10000)]) ∧
       (∀ n, lookupKV kvs "max_tokens" = some (.num n) → 14096 ≤ n →
          (injectThinking (Json.obj kvs)).getField? "max_tokens" = some (.num n)) ∧
       ((lookupKV kvs "max_tokens" = none ∨
           ∃ n, lookupKV kvs "max_tokens" = some (.num n) ∧ n < 14096) →
          (injectThinking (Json.obj kvs)).getField? "max_tokens" = some (.num 14096)))) := by
  constructor
  · intro j v h
    rw [injectThinking, h]
  · intro kvs m hthink hmodel hinc h46
    have hm : m ≠ "" := by
      intro he
      subst he
      exact absurd hinc (by decide)
    have hpat : isClaudeThinkingModel m = true := by
      rw [isClaudeThinkingModel]
      refine List.any_eq_true.mpr ⟨"claude-3-7-sonnet", ?_, hinc⟩
      rw [CLAUDE_THINKING_PATTERNS]
      simp
    have hget : (Json.obj kvs).getField? "thinking" = none := hthink
    have hgetm : (Json.obj kvs).getField? "model" = some (.str m) := hmodel
    have hout : injectThinking (Json.obj kvs) =
        (if maxTokensBelow (lookupKV kvs "max_tokens") (DEFAULT_THINKING_BUDGET + 4096) then
          ((Json.obj kvs).setField "thinking"
              (.obj [("type", .str "enabled"), ("budget_tokens", .num DEFAULT_THINKING_BUDGET)])).setField
            "max_tokens" (.num (DEFAULT_THINKING_BUDGET + 4096))
        else (Json.obj kvs).setField "thinking"
            (.obj [("type", .str "enabled"), ("budget_tokens", .num DEFAULT_THINKING_BUDGET)])) := by
      simp only [injectThinking, hget, hgetm, if_neg hm, h46, hpat, Bool.false_eq_true,
        if_false, if_true]
      rfl
    have hbudget : DEFAULT_THINKING_BUDGET + 4096 = (14096 : Int) := rfl
    rw [hbudget] at hout
    refine ⟨?_, ?_, ?_⟩
    · rw [hout]
      split
      · rw [getField?_setField_ne_any _ _ _ _ (by simp)]
        exact getField?_setField_self _ _ _
      · exact getField?_setField_self _ _ _
    · intro n hn h14
      rw [hout, hn, if_neg (by rw [maxTokensBelow_num_false h14]; simp)]
      rw [getField?_setField_ne_any _ _ _ _ (by simp)]
      exact hn
    · intro hcase
      rcases hcase with h | ⟨n, hn, hlt⟩
      · rw [hout, h,
          if_pos (show maxTokensBelow (none : Option Json) 14096 = true from rfl)]
        exact getField?_setField_self _ _ _
      · rw [hout, hn, if_pos (maxTokensBelow_num_true hlt)]
        exact getField?_setField_self _ _ _

/-- C5 witness: the amended theorem applied to the concrete request of the
spec example (claude-3-7-sonnet-20250219, no thinking, no max_tokens). -/
theorem c5_injectThinking_amended_witness :
    (injectThinking (Json.obj [("model", Json.str "claude-3-7-sonnet-20250219")])).getField?
        "thinking" = some (.obj [("type", .str "enabled"), ("budget_tokens", .num 10000)]) ∧
    (injectThinking (Json.obj [("model", Json.str "claude-3-7-sonnet-20250219")])).getField?
        "max_tokens" = some (.num 14096) := by
  have h := c5_injectThinking_amended.2 [("model", Json.str "claude-3-7-sonnet-20250219")]
    "claude-3-7-sonnet-20250219" rfl rfl rfl rfl
  exact ⟨h.1, h.2.2 (Or.inl rfl)⟩

-- ============================================================
-- C6 : relocation of the captured client system text
-- ============================================================

/-- C6: when the captured client system text is non-empty and a user-role
message exists, `injectSystemPrompt` prepends the delimited block to the
first such message — string-prepending for string content and inserting a
leading text segment for array content; when no user-role message exists
the body is only system-substituted, so the captured text is not relocated
anywhere. -/
theorem c6_client_system_relocation (kvs : List (String × Json)) (cs : String) (ms : List Json)
    (hcap : captureClientSystem (Json.obj kvs) = some cs) (hcs : cs ≠ "")
    (hmsgs : lookupKV kvs "messages" = some (.arr ms)) :
    (ms.findIdx? isUserMessage = none →
        injectSystemPrompt (Json.obj kvs) = (Json.obj kvs).setField "system" CLAUDE_CODE_SYSTEM) ∧
    (∀ i, ms.findIdx? isUserMessage = some i →
        ((∀ c, (ms.getD i .null).getField? "content" = some (.str c) →
            (injectSystemPrompt (Json.obj kvs)).getField? "messages" =
              some (.arr (ms.set i ((ms.getD i .null).setField "content"
                (.str (sysInstructionsBlock cs ++ c)))))) ∧
         (∀ blocks, (ms.getD i .null).getField? "content" = some (.arr blocks) →
            (injectSystemPrompt (Json.obj kvs)).getField? "messages" =
              some (.arr (ms.set i ((ms.getD i .null).setField "content"
                (.arr (.obj [("type", .str "text"), ("text", .str (sysInstructionsBlock cs))]
                  :: blocks)))))))) := by
  have hb1 : ((Json.obj kvs).setField "system" CLAUDE_CODE_SYSTEM).getField? "messages" =
      some (.arr ms) := by
    rw [getField?_setField_ne_any _ _ _ _ (by simp)]
    exact hmsgs
  constructor
  · intro hfind
    simp only [injectSystemPrompt, hcap, if_neg hcs, hb1, hfind]
  · intro i hfind
    have hself : ∀ v : Json,
        (((Json.obj kvs).setField "system" CLAUDE_CODE_SYSTEM).setField "messages" v).getField?
          "messages" = some v := by
      intro v
      exact getField?_setField_self _ _ _
    constructor
    · intro c hc
      simp only [injectSystemPrompt, hcap, if_neg hcs, hb1, hfind, hself]
      rw [prependSystemToMessage, hc]
    · intro blocks hc
      simp only [injectSystemPrompt, hcap, if_neg hcs, hb1, hfind, hself]
      rw [prependSystemToMessage, hc]

/-- C6 witness: the relocation applied to the spec example request
(system "Be terse", one user message with string content "hello"). -/
theorem c6_client_system_relocation_witness :
    (injectSystemPrompt (Json.obj
        [("system", Json.str "Be terse"),
         ("messages", Json.arr [Json.obj [("role", Json.str "user"),
            ("content", Json.str "hello")]])])).getField? "messages" =
      some (Json.arr [Json.obj [("role", Json.str "user"),
        ("content", Json.str
          "[System Instructions]\nBe terse\n[End System Instructions]\n\nhello")]]) := by
  have h := (c6_client_system_relocation
    [("system", Json.str "Be terse"),
     ("messages", Json.arr [Json.obj [("role", Json.str "user"), ("content", Json.str "hello")]])]
    "Be terse"
    [Json.obj [("role", Json.str "user"), ("content", Json.str "hello")]]
    rfl (by decide) rfl).2 0 rfl
  have h2 := h.1 "hello" rfl
  rw [h2]
  rfl

-- ============================================================
-- C7 : Response Repairer
-- ============================================================

/-- C7: `transformResponseBody` maps the per-block repair over an
array-valued `content` and leaves every other body unchanged; the repair
touches only `tool_use` blocks with an object input, replacing exactly the
string values that start with a bracket or brace by their successful JSON
parse and keeping them on parse failure; in particular "[1,2,3]" parses to
the numeric sequence and non-string values are never modified. -/
theorem c7_response_repair :
    (∀ body, (∀ blocks, body.getField? "content" ≠ some (.arr blocks)) →
        transformResponseBody body = body) ∧
    (∀ kvs blocks, lookupKV kvs "content" = some (.arr blocks) →
        transformResponseBody (Json.obj kvs) =
          (Json.obj kvs).setField "content" (.arr (blocks.map fixBlock))) ∧
    (∀ block, block.getField? "type" = none → fixBlock block = block) ∧
    (∀ block t, block.getField? "type" = some t → t ≠ .str "tool_use" →
        fixBlock block = block) ∧
    (∀ block kvs0, block.getField? "type" = some (.str "tool_use") →
        block.getField? "input" = some (.obj kvs0) →
        fixBlock block = block.setField "input"
          (.obj (kvs0.map fun kv => (kv.1, fixVal kv.2)))) ∧
    (∀ v, (∀ s, v ≠ .str s) → fixVal v = v) ∧
    (∀ s, (jsStartsWith s "[" || jsStartsWith s "\x7b") = false → fixVal (.str s) = .str s) ∧
    (∀ s r, (jsStartsWith s "[" || jsStartsWith s "\x7b") = true → jsonParse s = some r →
        fixVal (.str s) = r) ∧
    (∀ s, (jsStartsWith s "[" || jsStartsWith s "\x7b") = true → jsonParse s = none →
        fixVal (.str s) = .str s) ∧
    fixVal (.str "[1,2,3]") = .arr [.num 1, .num 2, .num 3] := by
  refine ⟨?_, ?_, ?_, ?_, ?_, ?_, ?_, ?_, ?_, by rfl⟩
  · intro body h
    rw [transformResponseBody]
    split
    · next blocks heq => exact absurd heq (h blocks)
    · rfl
  · intro kvs blocks h
    have hg : (Json.obj kvs).getField? "content" = some (.arr blocks) := h
    rw [transformResponseBody, hg]
  · intro block h
    rw [fixBlock, h]
  · intro block t h ht
    rw [fixBlock, h]
    have hts : ∀ ts : String, t = Json.str ts → ts ≠ "tool_use" := by
      intro ts hteq he
      exact ht (by rw [hteq, he])
    rcases h2 : block.getField? "input" with _ | v
    · cases t <;> rfl
    · cases t with
      | str ts =>
          cases v with
          | obj kvs1 => exact if_neg (hts ts rfl)
          | arr xs1 => exact if_neg (hts ts rfl)
          | null => rfl
          | bool b => rfl
          | num n => rfl
          | str s1 => rfl
          | protoFn nm => rfl
      | null => cases v <;> rfl
      | bool b => cases v <;> rfl
      | num n => cases v <;> rfl
      | protoFn nm => cases v <;> rfl
      | arr xs0 => cases v <;> rfl
      | obj kvs2 => cases v <;> rfl
  · intro block kvs0 h1 h2
    rw [fixBlock, h1, h2]
    simp
  · intro v hv
    cases v <;> first | rfl | exact absurd rfl (hv _)
  · intro s h
    rw [fixVal, if_neg (by simp_all)]
  · intro s r h hp
    rw [fixVal, if_pos (by simp_all), hp]
  · intro s h hp
    rw [fixVal, if_pos (by simp_all), hp]

/-- C7 witness: the repair applied to the concrete example block of the
spec (tool_use input field args = "[1,2,3]"); an already-structured value
is untouched. -/
theorem c7_response_repair_witness :
    fixBlock (Json.obj [("type", Json.str "tool_use"),
        ("input", Json.obj [("args", Json.str "[1,2,3]")])]) =
      Json.obj [("type", Json.str "tool_use"),
        ("input", Json.obj [("args", Json.arr [Json.num 1, Json.num 2, Json.num 3])])] ∧
    fixVal (Json.arr [Json.num 1, Json.num 2, Json.num 3]) =
      Json.arr [Json.num 1, Json.num 2, Json.num 3] := by
  constructor
  · have h := c7_response_repair.2.2.2.2.1
      (Json.obj [("type", Json.str "tool_use"), ("input", Json.obj [("args", Json.str "[1,2,3]")])])
      [("args", Json.str "[1,2,3]")] rfl rfl
    rw [h]
    rfl
  · exact c7_response_repair.2.2.2.2.2.1 _ (by intro s; simp)

-- ============================================================
-- C8 : SSE line rewrite rules
-- ============================================================

/-- C8: `transformSSELine` forwards unchanged every non-data line, every
data line whose trimmed payload is empty or the [DONE] sentinel, and every
data line whose payload fails to parse; only parsed events that start a
tool_use content block with a present name are rewritten and
re-serialized, every other parsed event keeping the original line. -/
theorem c8_sse_line_rules :
    (∀ line, jsStartsWith line "data:" = false → transformSSELine line = line) ∧
    (∀ line, jsStartsWith line "data:" = true → strTrim (strDrop line 5) = "[DONE]" →
        transformSSELine line = line) ∧
    (∀ line, jsStartsWith line "data:" = true → strTrim (strDrop line 5) = "" →
        transformSSELine line = line) ∧
    (∀ line, jsStartsWith line "data:" = true →
        jsonParse (strTrim (strDrop line 5)) = none → transformSSELine line = line) ∧
    (∀ line d, jsStartsWith line "data:" = true → strTrim (strDrop line 5) ≠ "" →
        strTrim (strDrop line 5) ≠ "[DONE]" →
        jsonParse (strTrim (strDrop line 5)) = some d →
        sseCond d = false → transformSSELine line = line) ∧
    (∀ line d, jsStartsWith line "data:" = true → strTrim (strDrop line 5) ≠ "" →
        strTrim (strDrop line 5) ≠ "[DONE]" →
        jsonParse (strTrim (strDrop line 5)) = some d →
        sseCond d = true →
        transformSSELine line = "data: " ++ jsonStringify (sseRewriteName d)) := by
  refine ⟨?_, ?_, ?_, ?_, ?_, ?_⟩
  · intro line h
    rw [transformSSELine, if_neg (by simp [h])]
  · intro line h hd
    rw [transformSSELine, if_pos (by simp [h])]
    rw [if_pos (by simp [hd])]
  · intro line h hd
    rw [transformSSELine, if_pos (by simp [h])]
    rw [if_pos (by simp [hd])]
  · intro line h hp
    rw [transformSSELine, if_pos (by simp [h])]
    by_cases hd : (strTrim (strDrop line 5) = "" || strTrim (strDrop line 5) = "[DONE]") = true
    · rw [if_pos hd]
    · rw [if_neg (by simpa using hd)]
      simp only [hp]
  · intro line d h hne hdone hp hc
    rw [transformSSELine, if_pos (by simp [h])]
    rw [if_neg (by simp [hne, hdone])]
    simp only [hp, hc, Bool.false_eq_true, if_false]
  · intro line d h hne hdone hp hc
    rw [transformSSELine, if_pos (by simp [h])]
    rw [if_neg (by simp [hne, hdone])]
    simp only [hp, hc, if_true]

/-- C8 witness: a [DONE] line is forwarded unchanged; a concrete
content_block_start event with a tool_use block named todowrite is
rewritten with the canonical name. -/
theorem c8_sse_line_rules_witness :
    transformSSELine "data: [DONE]" = "data: [DONE]" ∧
    transformSSELine
        "data: \x7b\"type\":\"content_block_start\",\"content_block\":\x7b\"type\":\"tool_use\",\"name\":\"todowrite\"\x7d\x7d" =
      "data: \x7b\"type\":\"content_block_start\",\"content_block\":\x7b\"type\":\"tool_use\",\"name\":\"TodoWrite\"\x7d\x7d" := by
  constructor
  · exact c8_sse_line_rules.2.1 "data: [DONE]" rfl rfl
  · have h := c8_sse_line_rules.2.2.2.2.2
      "data: \x7b\"type\":\"content_block_start\",\"content_block\":\x7b\"type\":\"tool_use\",\"name\":\"todowrite\"\x7d\x7d"
      (Json.obj [("type", Json.str "content_block_start"),
        ("content_block", Json.obj [("type", Json.str "tool_use"),
          ("name", Json.str "todowrite")])])
      rfl (by decide) (by decide) rfl rfl
    rw [h]
    rfl
-- ============================================================
-- C4 : builtin tool names across the request pipeline
-- ============================================================

theorem transformTool_builtin {tool : Json} (h : isBuiltinTool tool = true) :
    transformTool tool = tool := by
  rw [transformTool, if_pos h]

theorem isBuiltinTool_spec {tool : Json} (h : isBuiltinTool tool = true) :
    ∃ ty, tool.getField? "type" = some (.str ty) ∧
      (ty ≠ "" && BUILTIN_TOOL_TYPES.any (fun p => jsStartsWith ty p)) = true := by
  rw [isBuiltinTool] at h
  rcases ht : tool.getField? "type" with _ | v
  · rw [ht] at h
    cases h
  · rw [ht] at h
    cases v <;> first | cases h | exact ⟨_, rfl, h⟩

theorem builtin_type_not_sentinel {ty : String}
    (h : (ty ≠ "" && BUILTIN_TOOL_TYPES.any (fun p => jsStartsWith ty p)) = true) :
    ty ≠ "[undefined]" := by
  intro he
  subst he
  exact absurd h (by decide)

/-- Cleaning preserves the builtin classification of an object tool. -/
theorem isBuiltinTool_cleanUndefined {kts : List (String × Json)}
    (h : isBuiltinTool (Json.obj kts) = true) :
    isBuiltinTool (cleanUndefined (Json.obj kts)) = true := by
  obtain ⟨ty, hty, hcond⟩ := isBuiltinTool_spec h
  have hclean : (cleanUndefined (Json.obj kts)).getField? "type" = some (.str ty) :=
    getField?_cleanUndefined hty
      ((isSentinel_eq_false_iff _).mpr (by simpa using builtin_type_not_sentinel hcond))
  rw [isBuiltinTool, hclean]
  exact hcond

/-- `transformRequestBody` maps `transformTool` over an array-valued tools
field. -/
theorem getField?_transformRequestBody_tools {kvs : List (String × Json)} {ts1 : List Json}
    (h : lookupKV kvs "tools" = some (.arr ts1)) :
    (transformRequestBody (Json.obj kvs)).getField? "tools" =
      some (.arr (ts1.map transformTool)) := by
  rw [transformRequestBody]
  have hg : (Json.obj kvs).getField? "tools" = some (.arr ts1) := h
  simp only [hg]
  have hset : ((Json.obj kvs).setField "tools" (.arr (ts1.map transformTool))).getField? "tools" =
      some (.arr (ts1.map transformTool)) := getField?_setField_self _ _ _
  split
  · next ms heq =>
      rw [getField?_setField_ne_any _ _ _ _ (by simp)]
      exact hset
  · exact hset

/-- C4 (counterexample): the claim promises the name of a builtin tool
descriptor survives the full pipeline, but the sanitizer runs first and
deletes a name equal to the sentinel string: after the pipeline the
descriptor has no name field at all. -/
theorem c4_builtin_counterexample :
    isBuiltinTool (Json.obj [("type", Json.str "web_search"),
      ("name", Json.str "[undefined]")]) = true ∧
    (requestPipeline (Json.obj [("tools", Json.arr [Json.obj [("type", Json.str "web_search"),
        ("name", Json.str "[undefined]")]])])).getField? "tools" =
      some (Json.arr [Json.obj [("type", Json.str "web_search")]]) := by
  constructor
  · rfl
  · rfl

/-- C4 (amended): for every tool descriptor in the tools list whose type
starts with a builtin marker and whose name is a string other than the
sentinel "[undefined]", the corresponding descriptor after the full
pipeline (sanitize, normalize, system substitution, thinking injection)
still carries exactly that name, regardless of its casing. -/
theorem c4_builtin_name_preserved (kvs : List (String × Json)) (ts : List Json)
    (tool : Json) (s : String)
    (htools : lookupKV kvs "tools" = some (.arr ts))
    (hmem : tool ∈ ts)
    (hbuiltin : isBuiltinTool tool = true)
    (hname : tool.getField? "name" = some (.str s))
    (hs : s ≠ "[undefined]") :
    ∃ ts2, (requestPipeline (Json.obj kvs)).getField? "tools" = some (.arr ts2) ∧
      cleanUndefined tool ∈ ts2 ∧
      (cleanUndefined tool).getField? "name" = some (.str s) ∧
      isBuiltinTool (cleanUndefined tool) = true := by
  obtain ⟨kts, rfl⟩ := getField?_some_obj hname
  have hnamec : (cleanUndefined (Json.obj kts)).getField? "name" = some (.str s) :=
    getField?_cleanUndefined hname ((isSentinel_eq_false_iff _).mpr (by simpa using hs))
  have hbuiltinc := isBuiltinTool_cleanUndefined hbuiltin
  have hcleanbody : (cleanUndefined (Json.obj kvs)).getField? "tools" =
      some (.arr (cleanList ts)) := getField?_cleanUndefined htools rfl
  have hcleanbody2 : lookupKV (cleanObj kvs) "tools" = some (.arr (cleanList ts)) := hcleanbody
  have hmemc : cleanUndefined (Json.obj kts) ∈ cleanList ts :=
    mem_cleanList_of_mem hmem rfl
  have htr : (transformRequestBody (cleanUndefined (Json.obj kvs))).getField? "tools" =
      some (.arr ((cleanList ts).map transformTool)) := by
    have := getField?_transformRequestBody_tools hcleanbody2
    simpa [cleanUndefined] using this
  refine ⟨(cleanList ts).map transformTool, ?_, ?_, hnamec, hbuiltinc⟩
  · rw [requestPipeline]
    rw [getField?_injectThinking _ _ (by simp) (by simp)]
    rw [getField?_injectSystemPrompt _ _ (by simp) (by simp)]
    exact htr
  · have := List.mem_map_of_mem transformTool hmemc
    rwa [transformTool_builtin hbuiltinc] at this

/-- C4 witness: the amended theorem applied to a concrete builtin web
search tool whose name is the lowercase string web_search. -/
theorem c4_builtin_name_preserved_witness :
    ∃ ts2, (requestPipeline (Json.obj [("tools", Json.arr [Json.obj
        [("type", Json.str "web_search_20250305"),
         ("name", Json.str "web_search")]])])).getField? "tools" = some (.arr ts2) ∧
      cleanUndefined (Json.obj [("type", Json.str "web_search_20250305"),
        ("name", Json.str "web_search")]) ∈ ts2 ∧
      (cleanUndefined (Json.obj [("type", Json.str "web_search_20250305"),
        ("name", Json.str "web_search")])).getField? "name" = some (.str "web_search") ∧
      isBuiltinTool (cleanUndefined (Json.obj [("type", Json.str "web_search_20250305"),
        ("name", Json.str "web_search")])) = true :=
  c4_builtin_name_preserved
    [("tools", Json.arr [Json.obj [("type", Json.str "web_search_20250305"),
      ("name", Json.str "web_search")]])]
    [Json.obj [("type", Json.str "web_search_20250305"), ("name", Json.str "web_search")]]
    (Json.obj [("type", Json.str "web_search_20250305"), ("name", Json.str "web_search")])
    "web_search" rfl (List.mem_singleton.mpr rfl) rfl rfl (by decide)

-- ============================================================
-- C3 : Stream Relay chunking invariance
-- ============================================================

theorem splitBlank_fst_nil : ∀ {z : List Char}, (splitBlank z).1 = [] → (splitBlank z).2 = z := by
  intro z
  induction z using splitBlank.induct with
  | case1 => intro; rfl
  | case2 c => intro; rfl
  | case3 a b rest h ih =>
      intro hz
      rw [splitBlank, if_pos h] at hz
      simp at hz
  | case4 a b rest h ih =>
      intro hz
      rw [splitBlank, if_neg h] at hz ⊢
      rcases hsp : splitBlank (b :: rest) with ⟨is, l⟩
      cases is with
      | nil =>
          have hl : l = b :: rest := by
            have h2 := ih (by rw [hsp])
            rw [hsp] at h2
            exact h2
          have e : (consPart a ([], l)).2 = a :: l := rfl
          rw [e, hl]
      | cons p ps =>
          rw [hsp] at hz
          have e : (consPart a (p :: ps, l)).1 = (a :: p) :: ps := rfl
          rw [e] at hz
          simp at hz

theorem splitBlank_append (x y : List Char) :
    splitBlank (x ++ y) =
      ((splitBlank x).1 ++ (splitBlank ((splitBlank x).2 ++ y)).1,
       (splitBlank ((splitBlank x).2 ++ y)).2) := by
  induction x using splitBlank.induct with
  | case1 => simp [show splitBlank ([] : List Char) = ([], []) from rfl]
  | case2 c =>
      rw [show splitBlank [c] = ([], [c]) from rfl]
      rfl
  | case3 a b rest h ih =>
      have e1 : splitBlank (a :: b :: rest) =
          ([] :: (splitBlank rest).1, (splitBlank rest).2) := by
        rw [splitBlank, if_pos h]
      have e2 : splitBlank (a :: b :: (rest ++ y)) =
          ([] :: (splitBlank (rest ++ y)).1, (splitBlank (rest ++ y)).2) := by
        rw [splitBlank, if_pos h]
      have hx : (a :: b :: rest) ++ y = a :: b :: (rest ++ y) := rfl
      rw [hx, e2, ih, e1]
      rfl
  | case4 a b rest h ih =>
      have e1 : splitBlank (a :: b :: rest) = consPart a (splitBlank (b :: rest)) := by
        rw [splitBlank, if_neg h]
      have e2 : splitBlank (a :: b :: (rest ++ y)) =
          consPart a (splitBlank (b :: (rest ++ y))) := by
        rw [splitBlank, if_neg h]
      have hx : (a :: b :: rest) ++ y = a :: b :: (rest ++ y) := rfl
      have hy : (b :: rest) ++ y = b :: (rest ++ y) := rfl
      rw [hy] at ih
      rcases hsp : splitBlank (b :: rest) with ⟨is, l⟩
      rw [hsp] at e1 ih
      simp only [] at e1 ih
      cases is with
      | nil =>
          have hl : l = b :: rest := by
            have h2 := splitBlank_fst_nil (z := b :: rest) (by rw [hsp])
            rw [hsp] at h2
            exact h2
          rw [consPart] at e1
          rw [hx, e1, hl]
          rw [hx]
          simp
  
      | cons p ps =>
          rw [consPart] at e1
          rw [hx, e2, ih, e1]
          rw [List.cons_append, consPart]
          simp [List.cons_append]

theorem relayFeed_assoc (st : List String × List Char) (c1 c2 : List Char) :
    relayFeed (relayFeed st c1) c2 = relayFeed st (c1 ++ c2) := by
  obtain ⟨outs, buf⟩ := st
  rw [relayFeed, relayFeed, relayFeed]
  have h := splitBlank_append (buf ++ c1) c2
  rw [List.append_assoc] at h
  rw [h]
  simp [List.append_assoc]

theorem relayFold_eq (chunks : List String) (st : List String × List Char) (c : List Char) :
    chunks.foldl (fun st c => relayFeed st c.data) (relayFeed st c) =
      relayFeed st (c ++ (chunks.map String.data).flatten) := by
  induction chunks generalizing st c with
  | nil => simp
  | cons d ds ih =>
      rw [List.foldl_cons, relayFeed_assoc, ih]
      simp [List.append_assoc]

theorem join_data (l : List String) : (String.join l).data = (l.map String.data).flatten := by
  have H : ∀ (l : List String) (acc : String),
      (l.foldl (· ++ ·) acc).data = acc.data ++ (l.map String.data).flatten := by
    intro l
    induction l with
    | nil => simp
    | cons s t ih =>
        intro acc
        rw [List.foldl_cons, ih, String.data_append]
        simp
  have h := H l ""
  simpa [String.join] using h

/-- The decoded-text core of the relay is fragmentation-invariant: running
the buffer-accumulate / split-on-blank-line / transform / forward loop
(with its final flush) over any list of text chunks equals running it over
the single concatenated text chunk. -/
theorem relayRun_text_invariant (chunks : List String) :
    relayRun chunks = relayRun [String.join chunks] := by
  cases chunks with
  | nil => rfl
  | cons c cs =>
      rw [relayRun, relayRun]
      have h1 : (c :: cs).foldl (fun st c => relayFeed st c.data) ([], []) =
          relayFeed ([], []) (c.data ++ (cs.map String.data).flatten) := by
        rw [List.foldl_cons]
        exact relayFold_eq cs ([], []) c.data
      have h2 : [String.join (c :: cs)].foldl (fun st c => relayFeed st c.data) ([], []) =
          relayFeed ([], []) (c.data ++ (cs.map String.data).flatten) := by
        rw [List.foldl_cons, List.foldl_nil, join_data]
        rfl
      rw [h1, h2]

theorem mk_data (s : String) : String.mk s.data = s := by
  cases s
  rfl

theorem char_toNat_valid (c : Char) :
    c.toNat < 1114112 ∧ (c.toNat < 55296 ∨ 57343 < c.toNat) := by
  have h := c.valid
  have e : c.toNat = c.val.toNat := rfl
  rcases h with h | ⟨h1, h2⟩ <;> omega

theorem decode_ascii (b : Nat) (t : List Nat) (h : b ≤ 0x7F) :
    utf8Decode (b :: t) = Char.ofNat b :: utf8Decode t := by
  match t with
  | [] =>
      simp only [utf8Decode]
      rw [if_pos h]
  | [x] =>
      simp only [utf8Decode]
      rw [if_pos h]
  | [x, y] =>
      simp only [utf8Decode]
      rw [if_pos h]
  | x :: y :: z :: r =>
      simp only [utf8Decode]
      rw [if_pos h]

theorem decode_2byte (b b2 : Nat) (t : List Nat) (h1 : 0xC2 ≤ b ∧ b ≤ 0xDF)
    (h2 : isContByte b2 = true) :
    utf8Decode (b :: b2 :: t) = dec2val b b2 :: utf8Decode t := by
  have hnl : ¬ b ≤ 0x7F := by omega
  match t with
  | [] =>
      simp only [utf8Decode]
      rw [if_neg hnl, if_pos h1, if_pos h2]
  | [x] =>
      simp only [utf8Decode]
      rw [if_neg hnl, if_pos h1, if_pos h2]
  | x :: y :: r =>
      simp only [utf8Decode]
      rw [if_neg hnl, if_pos h1, if_pos h2]

theorem decode_3byte (b b2 b3 : Nat) (t : List Nat) (h1 : 0xE0 ≤ b ∧ b ≤ 0xEF)
    (h2 : lead3SecondOk b b2 = true) (h3 : isContByte b3 = true) :
    utf8Decode (b :: b2 :: b3 :: t) = dec3val b b2 b3 :: utf8Decode t := by
  have hnl : ¬ b ≤ 0x7F := by omega
  have hn2 : ¬ (0xC2 ≤ b ∧ b ≤ 0xDF) := by omega
  match t with
  | [] =>
      simp only [utf8Decode]
      rw [if_neg hnl, if_neg hn2, if_pos h1, if_pos h2, if_pos h3]
  | x :: r =>
      simp only [utf8Decode]
      rw [if_neg hnl, if_neg hn2, if_pos h1, if_pos h2, if_pos h3]

theorem decode_4byte (b b2 b3 b4 : Nat) (t : List Nat) (h1 : 0xF0 ≤ b ∧ b ≤ 0xF4)
    (h2 : lead4SecondOk b b2 = true) (h3 : isContByte b3 = true)
    (h4 : isContByte b4 = true) :
    utf8Decode (b :: b2 :: b3 :: b4 :: t) = dec4val b b2 b3 b4 :: utf8Decode t := by
  have hnl : ¬ b ≤ 0x7F := by omega
  have hn2 : ¬ (0xC2 ≤ b ∧ b ≤ 0xDF) := by omega
  have hn3 : ¬ (0xE0 ≤ b ∧ b ≤ 0xEF) := by omega
  simp only [utf8Decode]
  rw [if_neg hnl, if_neg hn2, if_neg hn3, if_pos h1, if_pos h2, if_pos h3, if_pos h4]

/-- Decoding reads back each encoded character and continues cleanly. -/
theorem utf8Decode_encodeChar (c : Char) (t : List Nat) :
    utf8Decode (utf8EncodeChar c ++ t) = c :: utf8Decode t := by
  obtain ⟨hv1, hv2⟩ := char_toNat_valid c
  by_cases h7 : c.toNat ≤ 0x7F
  · have he : utf8EncodeChar c = [c.toNat] := by
      rw [utf8EncodeChar, if_pos h7]
    rw [he, List.cons_append, List.nil_append, decode_ascii _ _ h7, Char.ofNat_toNat]
  · by_cases h11 : c.toNat ≤ 0x7FF
    · have he : utf8EncodeChar c = [0xC0 + c.toNat / 0x40, 0x80 + c.toNat % 0x40] := by
        rw [utf8EncodeChar, if_neg h7, if_pos h11]
      rw [he]
      simp only [List.cons_append, List.nil_append]
      rw [decode_2byte _ _ _ (by omega)
        (by simp only [isContByte, Bool.and_eq_true, decide_eq_true_eq]; omega)]
      have harith : dec2val (0xC0 + c.toNat / 0x40) (0x80 + c.toNat % 0x40) = c := by
        rw [dec2val]
        have e : (0xC0 + c.toNat / 0x40 - 0xC0) * 0x40 + (0x80 + c.toNat % 0x40 - 0x80) =
            c.toNat := by omega
        rw [e, Char.ofNat_toNat]
      rw [harith]
    · by_cases h16 : c.toNat ≤ 0xFFFF
      · have he : utf8EncodeChar c =
            [0xE0 + c.toNat / 0x1000, 0x80 + c.toNat / 0x40 % 0x40, 0x80 + c.toNat % 0x40] := by
          rw [utf8EncodeChar, if_neg h7, if_neg h11, if_pos h16]
        rw [he]
        simp only [List.cons_append, List.nil_append]
        have hsec : lead3SecondOk (0xE0 + c.toNat / 0x1000) (0x80 + c.toNat / 0x40 % 0x40) =
            true := by
          rw [lead3SecondOk]
          split_ifs with hE0 hED <;>
            simp only [isContByte, Bool.and_eq_true, decide_eq_true_eq] <;> omega
        rw [decode_3byte _ _ _ _ (by omega) hsec
          (by simp only [isContByte, Bool.and_eq_true, decide_eq_true_eq]; omega)]
        have harith : dec3val (0xE0 + c.toNat / 0x1000) (0x80 + c.toNat / 0x40 % 0x40)
            (0x80 + c.toNat % 0x40) = c := by
          rw [dec3val]
          have e : (0xE0 + c.toNat / 0x1000 - 0xE0) * 0x1000 +
              (0x80 + c.toNat / 0x40 % 0x40 - 0x80) * 0x40 +
              (0x80 + c.toNat % 0x40 - 0x80) = c.toNat := by omega
          rw [e, Char.ofNat_toNat]
        rw [harith]
      · have he : utf8EncodeChar c =
            [0xF0 + c.toNat / 0x40000, 0x80 + c.toNat / 0x1000 % 0x40,
             0x80 + c.toNat / 0x40 % 0x40, 0x80 + c.toNat % 0x40] := by
          rw [utf8EncodeChar, if_neg h7, if_neg h11, if_neg h16]
        rw [he]
        simp only [List.cons_append, List.nil_append]
        have hsec : lead4SecondOk (0xF0 + c.toNat / 0x40000) (0x80 + c.toNat / 0x1000 % 0x40) =
            true := by
          rw [lead4SecondOk]
          split_ifs with hF0 hF4 <;>
            simp only [isContByte, Bool.and_eq_true, decide_eq_true_eq] <;> omega
        rw [decode_4byte _ _ _ _ _ (by omega) hsec
          (by simp only [isContByte, Bool.and_eq_true, decide_eq_true_eq]; omega)
          (by simp only [isContByte, Bool.and_eq_true, decide_eq_true_eq]; omega)]
        have harith : dec4val (0xF0 + c.toNat / 0x40000) (0x80 + c.toNat / 0x1000 % 0x40)
            (0x80 + c.toNat / 0x40 % 0x40) (0x80 + c.toNat % 0x40) = c := by
          rw [dec4val]
          have e : (0xF0 + c.toNat / 0x40000 - 0xF0) * 0x40000 +
              (0x80 + c.toNat / 0x1000 % 0x40 - 0x80) * 0x1000 +
              (0x80 + c.toNat / 0x40 % 0x40 - 0x80) * 0x40 +
              (0x80 + c.toNat % 0x40 - 0x80) = c.toNat := by omega
          rw [e, Char.ofNat_toNat]
        rw [harith]

theorem utf8Decode_encodeList (cs : List Char) (t : List Nat) :
    utf8Decode ((cs.map utf8EncodeChar).flatten ++ t) = cs ++ utf8Decode t := by
  induction cs with
  | nil => simp
  | cons c rest ih =>
      simp only [List.map_cons, List.flatten_cons, List.append_assoc]
      rw [utf8Decode_encodeChar, ih]
      rfl

theorem utf8Decode_encode (s : String) : utf8Decode (utf8Encode s) = s.data := by
  have h := utf8Decode_encodeList s.data []
  simpa [utf8Encode, show utf8Decode [] = ([] : List Char) from rfl] using h

theorem utf8Decode_flatten_encode (ss : List String) :
    utf8Decode (ss.map utf8Encode).flatten = (ss.map String.data).flatten := by
  induction ss with
  | nil => rfl
  | cons s rest ih =>
      simp only [List.map_cons, List.flatten_cons]
      have h := utf8Decode_encodeList s.data ((rest.map utf8Encode).flatten)
      rw [show (utf8Encode s : List Nat) = (s.data.map utf8EncodeChar).flatten from rfl, h, ih]

theorem exists_map_encode {bchunks : List (List Nat)}
    (h : ∀ c ∈ bchunks, ∃ s : String, c = utf8Encode s) :
    ∃ ss : List String, bchunks = ss.map utf8Encode := by
  induction bchunks with
  | nil => exact ⟨[], rfl⟩
  | cons c t ih =>
      obtain ⟨s, hs⟩ := h c (List.mem_cons_self _ _)
      obtain ⟨ss, hss⟩ := ih fun x hx => h x (List.mem_cons_of_mem _ hx)
      exact ⟨s :: ss, by rw [List.map_cons, ← hs, ← hss]⟩

/-- C3 (counterexample): the claim quantifies over every byte-level
fragmentation, but the relay decodes each delivery chunk independently, so
splitting the two-byte character U+00E9 of the stream
"data: xé(blank line)" across two chunks yields replacement characters and
a different forwarded event than single-chunk delivery. -/
theorem c3_relay_byte_counterexample :
    List.flatten [[100, 97, 116, 97, 58, 32, 120, 195], [169, 10, 10]] =
      [100, 97, 116, 97, 58, 32, 120, 195, 169, 10, 10] ∧
    relayRunBytes [[100, 97, 116, 97, 58, 32, 120, 195], [169, 10, 10]] ≠
      relayRunBytes [[100, 97, 116, 97, 58, 32, 120, 195, 169, 10, 10]] := by
  constructor
  · rfl
  · decide

/-- C3 (amended): for every byte stream and every fragmentation into
delivery chunks that does not split a multi-byte UTF-8 character across a
chunk boundary — each chunk is a well-formed UTF-8 encoding — the relay
produces the identical ordered sequence of forwarded, rewritten events as
when the same bytes arrive as one chunk. -/
theorem c3_relay_chunking_amended (bchunks : List (List Nat))
    (h : ∀ c ∈ bchunks, ∃ s : String, c = utf8Encode s) :
    relayRunBytes bchunks = relayRunBytes [bchunks.flatten] := by
  obtain ⟨ss, rfl⟩ := exists_map_encode h
  rw [relayRunBytes, relayRunBytes]
  have h1 : (ss.map utf8Encode).map (fun c => String.mk (utf8Decode c)) = ss := by
    rw [List.map_map]
    have : ∀ s ∈ ss, (fun c => String.mk (utf8Decode c)) (utf8Encode s) = s := by
      intro s _
      simp only [utf8Decode_encode, mk_data]
    calc ss.map ((fun c => String.mk (utf8Decode c)) ∘ utf8Encode)
        = ss.map id := List.map_congr_left this
      _ = ss := List.map_id ss
  have h2 : ([(ss.map utf8Encode).flatten].map fun c => String.mk (utf8Decode c)) =
      [String.join ss] := by
    simp only [List.map_cons, List.map_nil]
    rw [utf8Decode_flatten_encode, ← join_data, mk_data]
  rw [h1, h2]
  exact relayRun_text_invariant ss

/-- C3 witness: the amended theorem applied to a concrete two-chunk
fragmentation aligned to character boundaries. -/
theorem c3_relay_chunking_amended_witness :
    relayRunBytes [utf8Encode "data: a\n", utf8Encode "\ndata: b\n\n"] =
      relayRunBytes [List.flatten [utf8Encode "data: a\n", utf8Encode "\ndata: b\n\n"]] :=
  c3_relay_chunking_amended _ (by
    intro c hc
    simp only [List.mem_cons, List.not_mem_nil, or_false] at hc
    rcases hc with h | h
    · exact ⟨"data: a\n", h⟩
    · exact ⟨"\ndata: b\n\n", h⟩)

end AnyRouterProxy

